import Mathlib

/-!
Verification of the dlhd-proxy core against its specification.

The Python source is shallowly embedded: bytes are lists of `Nat` below
256, Python `str` values are lists of Unicode code points (`List Nat`) in
the cipher layer and Lean `String`s elsewhere, fallible code returns
`Except`/`Option`, and process-wide state (the XOR key, the catalog
snapshot) is passed explicitly.
-/

namespace Dlhd

/-! ## Obfuscation cipher (src/dlhd_proxy/utils.py)

`key_bytes = os.urandom(64)` is modelled as an explicit `key : List Nat`
parameter (the source draws it once per process; its length is 64 and its
entries are bytes).
-/

/-- Embedding of `utils.xor` shifted by a starting index: Python computes
`input_bytes[i] ^ key_bytes[i % len(key_bytes)]` for each position. -/
def xorKeyAux (key : List Nat) (i : Nat) : List Nat → List Nat
  | [] => []
  | b :: bs => (b ^^^ key.getD (i % key.length) 0) :: xorKeyAux key (i + 1) bs

/-- Embedding of `utils.xor`: XOR the byte list against the key repeated
cyclically. -/
def xorKey (key : List Nat) (bs : List Nat) : List Nat :=
  xorKeyAux key 0 bs

/-- The URL-safe base64 character for a 6-bit index, as produced by
`base64.urlsafe_b64encode`. -/
def b64Char (n : Nat) : Char :=
  if n < 26 then Char.ofNat (65 + n)
  else if n < 52 then Char.ofNat (97 + (n - 26))
  else if n < 62 then Char.ofNat (48 + (n - 52))
  else if n = 62 then '-' else '_'

/-- Index of a URL-safe base64 character, `none` for characters outside
the alphabet. -/
def b64Index (c : Char) : Option Nat :=
  let v := c.toNat
  if 65 ≤ v ∧ v ≤ 90 then some (v - 65)
  else if 97 ≤ v ∧ v ≤ 122 then some (26 + (v - 97))
  else if 48 ≤ v ∧ v ≤ 57 then some (52 + (v - 48))
  else if c = '-' then some 62
  else if c = '_' then some 63
  else none

/-- True for the characters of the URL-safe alphabet, i.e. the regex class
`[A-Za-z0-9_-]` used by `utils.decrypt`. -/
def isUrlB64Char (c : Char) : Bool :=
  (b64Index c).isSome

/-- Embedding of `base64.urlsafe_b64encode` on a byte list, producing the
padded character sequence. -/
def b64EncodePadded : List Nat → List Char
  | [] => []
  | [b1] => [b64Char (b1 / 4), b64Char (b1 % 4 * 16), '=', '=']
  | [b1, b2] =>
      [b64Char (b1 / 4), b64Char (b1 % 4 * 16 + b2 / 16), b64Char (b2 % 16 * 4), '=']
  | b1 :: b2 :: b3 :: rest =>
      b64Char (b1 / 4) :: b64Char (b1 % 4 * 16 + b2 / 16) ::
      b64Char (b2 % 16 * 4 + b3 / 64) :: b64Char (b3 % 64) :: b64EncodePadded rest

/-- Embedding of `base64.urlsafe_b64decode` on properly padded input:
groups of four characters, with `=` padding only in the final group.
(Python additionally discards characters outside the alphabet before
decoding; `utils.decrypt` rejects such inputs by regex before decoding,
so on the domain reached by the source the two agree.) -/
def b64DecodePadded : List Char → Option (List Nat)
  | [] => some []
  | c1 :: c2 :: c3 :: c4 :: rest =>
    match b64Index c1, b64Index c2 with
    | some n1, some n2 =>
      if c3 = '=' then
        if c4 = '=' ∧ rest = [] then some [n1 * 4 + n2 / 16] else none
      else
        match b64Index c3 with
        | some n3 =>
          if c4 = '=' then
            if rest = [] then some [n1 * 4 + n2 / 16, n2 % 16 * 16 + n3 / 4] else none
          else
            match b64Index c4 with
            | some n4 =>
              (b64DecodePadded rest).map
                (fun tail => (n1 * 4 + n2 / 16) :: (n2 % 16 * 16 + n3 / 4) ::
                  (n3 % 4 * 64 + n4) :: tail)
            | none => none
        | none => none
    | _, _ => none
  | _ => none

/-- Python `str.rstrip(c)` for a single character: drop trailing
occurrences. -/
def rstripChar (c : Char) (s : List Char) : List Char :=
  (s.reverse.dropWhile (· = c)).reverse

/-- The number of `=` characters `utils.decrypt` appends:
`(-len(input_string)) % 4` in Python. -/
def padLen (n : Nat) : Nat :=
  (4 - n % 4) % 4

/-- A Unicode scalar value, i.e. a code point Python `str.encode` accepts:
below 0x110000 and not a surrogate. -/
def ValidCodepoint (c : Nat) : Prop :=
  c < 0x110000 ∧ (c < 0xD800 ∨ 0xE000 ≤ c)

instance (c : Nat) : Decidable (ValidCodepoint c) := by
  unfold ValidCodepoint; infer_instance

/-- UTF-8 encoding of one code point (model of `str.encode` per scalar;
the source only encodes valid scalar values). -/
def utf8EncodeChar (c : Nat) : List Nat :=
  if c < 0x80 then [c]
  else if c < 0x800 then [0xC0 + c / 64, 0x80 + c % 64]
  else if c < 0x10000 then [0xE0 + c / 4096, 0x80 + c / 64 % 64, 0x80 + c % 64]
  else [0xF0 + c / 262144, 0x80 + c / 4096 % 64, 0x80 + c / 64 % 64, 0x80 + c % 64]

/-- UTF-8 encoding of a code-point sequence (model of `str.encode`). -/
def utf8Encode (s : List Nat) : List Nat :=
  s.flatMap utf8EncodeChar

/-- A UTF-8 continuation byte. -/
def isCont (b : Nat) : Bool :=
  0x80 ≤ b ∧ b < 0xC0

/-- One step of strict UTF-8 decoding (model of `bytes.decode`): decode
the scalar starting at byte `b` with lookahead `bs`, returning the scalar
and the remaining bytes; rejects overlong forms, surrogates, truncated
sequences and out-of-range code points. -/
def utf8DecodeStep (b : Nat) (bs : List Nat) : Option (Nat × List Nat) :=
  if b < 0x80 then some (b, bs)
  else if b < 0xC2 then none
  else if b < 0xE0 then
    match bs with
    | b2 :: bs2 =>
      if isCont b2 then some ((b - 0xC0) * 64 + (b2 - 0x80), bs2) else none
    | [] => none
  else if b < 0xF0 then
    match bs with
    | b2 :: b3 :: bs2 =>
      if isCont b2 ∧ isCont b3 then
        let c := (b - 0xE0) * 4096 + (b2 - 0x80) * 64 + (b3 - 0x80)
        if 0x800 ≤ c ∧ ¬(0xD800 ≤ c ∧ c < 0xE000) then some (c, bs2) else none
      else none
    | _ => none
  else if b < 0xF5 then
    match bs with
    | b2 :: b3 :: b4 :: bs2 =>
      if isCont b2 ∧ isCont b3 ∧ isCont b4 then
        let c := (b - 0xF0) * 262144 + (b2 - 0x80) * 4096 + (b3 - 0x80) * 64 + (b4 - 0x80)
        if 0x10000 ≤ c ∧ c < 0x110000 then some (c, bs2) else none
      else none
    | _ => none
  else none

/-- Strict UTF-8 decoding loop; the fuel only bounds the number of decoded
scalars and is set to the byte length by `utf8Decode`, which always
suffices. -/
def utf8DecodeAux : Nat → List Nat → Option (List Nat)
  | _, [] => some []
  | 0, _ :: _ => none
  | fuel + 1, b :: bs =>
    match utf8DecodeStep b bs with
    | none => none
    | some (c, rest) => (utf8DecodeAux fuel rest).map (c :: ·)

/-- Strict UTF-8 decoding (model of `bytes.decode`). -/
def utf8Decode (bs : List Nat) : Option (List Nat) :=
  utf8DecodeAux bs.length bs

/-- Embedding of `utils.encrypt`: XOR the UTF-8 bytes of the plaintext
against the cyclic key, URL-safe-base64-encode, strip `=` padding. -/
def encrypt (key : List Nat) (s : List Nat) : List Char :=
  rstripChar '=' (b64EncodePadded (xorKey key (utf8Encode s)))

/-- The shape check of `utils.decrypt`:
`re.fullmatch(r"[A-Za-z0-9_-]+=?=?", padded)`.  Because `=` is not in the
character class, a full match is exactly a non-empty alphabet prefix
followed by at most two `=`. -/
def tokenShapeOk (s : List Char) : Bool :=
  let body := s.takeWhile isUrlB64Char
  let rest := s.dropWhile isUrlB64Char
  ¬body.isEmpty ∧ (rest = [] ∨ rest = ['='] ∨ rest = ['=', '='])

/-- Embedding of `utils.decrypt`: restore padding, check the shape regex,
URL-safe-base64-decode, XOR with the key, decode as UTF-8; every failure
raises `ValueError("Invalid encrypted payload")`. -/
def decrypt (key : List Nat) (token : List Char) : Except String (List Nat) :=
  let padded := token ++ List.replicate (padLen token.length) '='
  if ¬tokenShapeOk padded then .error "Invalid encrypted payload"
  else
    match b64DecodePadded padded with
    | none => .error "Invalid encrypted payload"
    | some bs =>
      match utf8Decode (xorKey key bs) with
      | none => .error "Invalid encrypted payload"
      | some cps => .ok cps

end Dlhd

namespace Dlhd

/-! ### Cipher lemmas -/

theorem xorKeyAux_xorKeyAux (key : List Nat) :
    ∀ (bs : List Nat) (i : Nat), xorKeyAux key i (xorKeyAux key i bs) = bs
  | [], _ => rfl
  | b :: bs, i => by
    simp only [xorKeyAux, Nat.xor_cancel_right]
    exact congrArg _ (xorKeyAux_xorKeyAux key bs (i + 1))

theorem xorKey_xorKey (key bs : List Nat) : xorKey key (xorKey key bs) = bs :=
  xorKeyAux_xorKeyAux key bs 0

theorem getD_lt_of_forall (key : List Nat) (hk : ∀ b ∈ key, b < 256) (n : Nat) :
    key.getD n 0 < 256 := by
  rw [List.getD_eq_getElem?_getD]
  cases h : key[n]? with
  | none => simp
  | some v =>
    obtain ⟨hn, rfl⟩ := List.getElem?_eq_some.mp h
    exact hk _ (List.getElem_mem hn)

theorem xorKeyAux_lt (key : List Nat) (hk : ∀ b ∈ key, b < 256) :
    ∀ (bs : List Nat) (i : Nat), (∀ b ∈ bs, b < 256) →
      ∀ b ∈ xorKeyAux key i bs, b < 256
  | [], _, _ => by simp [xorKeyAux]
  | b :: bs, i, h => by
    simp only [xorKeyAux, List.mem_cons]
    rintro x (rfl | hx)
    · have h1 : b < 2 ^ 8 := h b (by simp)
      have h2 : key.getD (i % key.length) 0 < 2 ^ 8 :=
        getD_lt_of_forall key hk _
      exact Nat.xor_lt_two_pow h1 h2
    · exact xorKeyAux_lt key hk bs (i + 1) (fun y hy => h y (by simp [hy])) x hx

theorem length_xorKeyAux (key : List Nat) :
    ∀ (bs : List Nat) (i : Nat), (xorKeyAux key i bs).length = bs.length
  | [], _ => rfl
  | _ :: bs, i => by
    simp [xorKeyAux, length_xorKeyAux key bs (i + 1)]

theorem xorKey_lt (key : List Nat) (hk : ∀ b ∈ key, b < 256) (bs : List Nat)
    (h : ∀ b ∈ bs, b < 256) : ∀ b ∈ xorKey key bs, b < 256 :=
  xorKeyAux_lt key hk bs 0 h

theorem length_xorKey (key bs : List Nat) : (xorKey key bs).length = bs.length :=
  length_xorKeyAux key bs 0

/-! ### URL-safe base64 lemmas -/

theorem b64Index_b64Char : ∀ n, n < 64 → b64Index (b64Char n) = some n := by decide

theorem b64Char_isUrl : ∀ n, n < 64 → isUrlB64Char (b64Char n) = true := by decide

theorem isUrl_ne_pad {c : Char} (h : isUrlB64Char c = true) : c ≠ '=' := by
  rintro rfl
  exact absurd h (by decide)

theorem b64Char_ne_pad (n : Nat) (hn : n < 64) : b64Char n ≠ '=' :=
  isUrl_ne_pad (b64Char_isUrl n hn)

theorem b64_roundtrip : ∀ bs : List Nat, (∀ b ∈ bs, b < 256) →
    b64DecodePadded (b64EncodePadded bs) = some bs
  | [], _ => rfl
  | [b1], h => by
    have hb1 : b1 < 256 := h b1 (by simp)
    have e1 := b64Index_b64Char (b1 / 4) (by omega)
    have e2 := b64Index_b64Char (b1 % 4 * 16) (by omega)
    simp only [b64EncodePadded, b64DecodePadded, e1, e2]
    simp
    omega
  | [b1, b2], h => by
    have hb1 : b1 < 256 := h b1 (by simp)
    have hb2 : b2 < 256 := h b2 (by simp)
    have e1 := b64Index_b64Char (b1 / 4) (by omega)
    have e2 := b64Index_b64Char (b1 % 4 * 16 + b2 / 16) (by omega)
    have e3 := b64Index_b64Char (b2 % 16 * 4) (by omega)
    have n3 := b64Char_ne_pad (b2 % 16 * 4) (by omega)
    simp only [b64EncodePadded, b64DecodePadded, e1, e2, e3, if_neg n3]
    simp
    omega
  | b1 :: b2 :: b3 :: rest, h => by
    have hb1 : b1 < 256 := h b1 (by simp)
    have hb2 : b2 < 256 := h b2 (by simp)
    have hb3 : b3 < 256 := h b3 (by simp)
    have e1 := b64Index_b64Char (b1 / 4) (by omega)
    have e2 := b64Index_b64Char (b1 % 4 * 16 + b2 / 16) (by omega)
    have e3 := b64Index_b64Char (b2 % 16 * 4 + b3 / 64) (by omega)
    have e4 := b64Index_b64Char (b3 % 64) (by omega)
    have n3 := b64Char_ne_pad (b2 % 16 * 4 + b3 / 64) (by omega)
    have n4 := b64Char_ne_pad (b3 % 64) (by omega)
    have ih := b64_roundtrip rest (fun b hb => h b (by simp [hb]))
    simp only [b64EncodePadded, b64DecodePadded, e1, e2, e3, e4, if_neg n3, if_neg n4, ih]
    simp
    omega

/-- Structure of a padded encoding: an alphabet-only body followed by at
most two `=`, with the stripped form and the pad length related exactly as
`utils.decrypt` assumes. -/
theorem b64Encode_structure : ∀ bs : List Nat, (∀ b ∈ bs, b < 256) →
    ∃ body k,
      b64EncodePadded bs = body ++ List.replicate k '=' ∧
      rstripChar '=' (b64EncodePadded bs) = body ∧
      (∀ c ∈ body, isUrlB64Char c = true) ∧
      k = padLen body.length ∧ k ≤ 2 ∧ (bs = [] ∨ body ≠ [])
  | [], _ => ⟨[], 0, by simp [b64EncodePadded, rstripChar, padLen]⟩
  | [b1], h => by
    have hb1 : b1 < 256 := h b1 (by simp)
    have u1 := b64Char_isUrl (b1 / 4) (by omega)
    have u2 := b64Char_isUrl (b1 % 4 * 16) (by omega)
    refine ⟨[b64Char (b1 / 4), b64Char (b1 % 4 * 16)], 2, ?_, ?_, ?_, ?_, ?_, ?_⟩
    · simp [b64EncodePadded, List.replicate]
    · simp [b64EncodePadded, rstripChar, List.dropWhile, isUrl_ne_pad u2]
    · intro c hc
      simp only [List.mem_cons, List.not_mem_nil, or_false] at hc
      rcases hc with rfl | rfl
      exacts [u1, u2]
    · rfl
    · omega
    · simp
  | [b1, b2], h => by
    have hb1 : b1 < 256 := h b1 (by simp)
    have hb2 : b2 < 256 := h b2 (by simp)
    have u1 := b64Char_isUrl (b1 / 4) (by omega)
    have u2 := b64Char_isUrl (b1 % 4 * 16 + b2 / 16) (by omega)
    have u3 := b64Char_isUrl (b2 % 16 * 4) (by omega)
    refine ⟨[b64Char (b1 / 4), b64Char (b1 % 4 * 16 + b2 / 16), b64Char (b2 % 16 * 4)],
      1, ?_, ?_, ?_, ?_, ?_, ?_⟩
    · simp [b64EncodePadded, List.replicate]
    · simp [b64EncodePadded, rstripChar, List.dropWhile, isUrl_ne_pad u3]
    · intro c hc
      simp only [List.mem_cons, List.not_mem_nil, or_false] at hc
      rcases hc with rfl | rfl | rfl
      exacts [u1, u2, u3]
    · rfl
    · omega
    · simp
  | b1 :: b2 :: b3 :: rest, h => by
    have hb1 : b1 < 256 := h b1 (by simp)
    have hb2 : b2 < 256 := h b2 (by simp)
    have hb3 : b3 < 256 := h b3 (by simp)
    have u1 := b64Char_isUrl (b1 / 4) (by omega)
    have u2 := b64Char_isUrl (b1 % 4 * 16 + b2 / 16) (by omega)
    have u3 := b64Char_isUrl (b2 % 16 * 4 + b3 / 64) (by omega)
    have u4 := b64Char_isUrl (b3 % 64) (by omega)
    obtain ⟨body, k, henc, hstrip, hurl, hk, hk2, hne⟩ :=
      b64Encode_structure rest (fun b hb => h b (by simp [hb]))
    refine ⟨b64Char (b1 / 4) :: b64Char (b1 % 4 * 16 + b2 / 16) ::
      b64Char (b2 % 16 * 4 + b3 / 64) :: b64Char (b3 % 64) :: body, k, ?_, ?_, ?_, ?_, ?_, ?_⟩
    · simp [b64EncodePadded, henc]
    · have : b64EncodePadded (b1 :: b2 :: b3 :: rest) =
        [b64Char (b1 / 4), b64Char (b1 % 4 * 16 + b2 / 16),
         b64Char (b2 % 16 * 4 + b3 / 64), b64Char (b3 % 64)] ++ b64EncodePadded rest := by
        simp [b64EncodePadded]
      rw [this]
      unfold rstripChar
      rw [List.reverse_append, List.dropWhile_append]
      have hrev : (List.dropWhile (· = '=') (b64EncodePadded rest).reverse) = body.reverse := by
        have := hstrip
        unfold rstripChar at this
        have h2 := congrArg List.reverse this
        simpa using h2
      rw [hrev]
      by_cases hb : body = []
      · subst hb
        simp [List.dropWhile, isUrl_ne_pad u4]
      · rw [if_neg (by simpa using hb)]
        simp
    · intro c hc
      simp only [List.mem_cons] at hc
      rcases hc with rfl | rfl | rfl | rfl | h
      exacts [u1, u2, u3, u4, hurl _ h]
    · unfold padLen at hk ⊢
      simp only [List.length_cons]
      omega
    · exact hk2
    · simp

/-! ### UTF-8 lemmas -/

theorem utf8EncodeChar_lt {c : Nat} (h : ValidCodepoint c) :
    ∀ b ∈ utf8EncodeChar c, b < 256 := by
  obtain ⟨h1, _⟩ := h
  intro b hb
  unfold utf8EncodeChar at hb
  by_cases hA : c < 0x80
  · rw [if_pos hA] at hb
    simp only [List.mem_singleton] at hb
    omega
  · rw [if_neg hA] at hb
    by_cases hB : c < 0x800
    · rw [if_pos hB] at hb
      simp only [List.mem_cons, List.not_mem_nil, or_false] at hb
      rcases hb with rfl | rfl <;> omega
    · rw [if_neg hB] at hb
      by_cases hC : c < 0x10000
      · rw [if_pos hC] at hb
        simp only [List.mem_cons, List.not_mem_nil, or_false] at hb
        rcases hb with rfl | rfl | rfl <;> omega
      · rw [if_neg hC] at hb
        simp only [List.mem_cons, List.not_mem_nil, or_false] at hb
        rcases hb with rfl | rfl | rfl | rfl <;> omega

theorem utf8EncodeChar_ne_nil (c : Nat) : utf8EncodeChar c ≠ [] := by
  unfold utf8EncodeChar
  by_cases hA : c < 0x80
  · simp [hA]
  · by_cases hB : c < 0x800
    · simp [hA, hB]
    · by_cases hC : c < 0x10000 <;> simp [hA, hB, hC]

set_option maxRecDepth 8000 in
theorem utf8DecodeStep_encodeChar {c : Nat} (h : ValidCodepoint c) (rest : List Nat) :
    ∃ head tail, utf8EncodeChar c ++ rest = head :: tail ∧
      utf8DecodeStep head tail = some (c, rest) := by
  obtain ⟨h1, h2⟩ := h
  by_cases hA : c < 0x80
  · rw [show utf8EncodeChar c = [c] from by rw [utf8EncodeChar, if_pos hA]]
    refine ⟨c, rest, rfl, ?_⟩
    rw [utf8DecodeStep.eq_def, if_pos hA]
  · by_cases hB : c < 0x800
    · rw [show utf8EncodeChar c = [0xC0 + c / 64, 0x80 + c % 64] from by
        rw [utf8EncodeChar, if_neg hA, if_pos hB]]
      refine ⟨0xC0 + c / 64, (0x80 + c % 64) :: rest, by simp, ?_⟩
      rw [utf8DecodeStep.eq_def, if_neg (by omega), if_neg (by omega), if_pos (by omega)]
      dsimp only
      rw [if_pos (show isCont (0x80 + c % 64) = true from by simp [isCont]; omega)]
      congr 2
      omega
    · by_cases hC : c < 0x10000
      · rw [show utf8EncodeChar c = [0xE0 + c / 4096, 0x80 + c / 64 % 64, 0x80 + c % 64] from by
          rw [utf8EncodeChar, if_neg hA, if_neg hB, if_pos hC]]
        refine ⟨0xE0 + c / 4096, (0x80 + c / 64 % 64) :: (0x80 + c % 64) :: rest, by simp, ?_⟩
        rw [utf8DecodeStep.eq_def, if_neg (by omega), if_neg (by omega), if_neg (by omega),
          if_pos (by omega)]
        dsimp only
        rw [if_pos (show (isCont (0x80 + c / 64 % 64) = true ∧ isCont (0x80 + c % 64) = true)
          from by constructor <;> (simp [isCont]; omega))]
        rw [if_pos (by constructor <;> omega)]
        congr 2
        omega
      · rw [show utf8EncodeChar c =
            [0xF0 + c / 262144, 0x80 + c / 4096 % 64, 0x80 + c / 64 % 64, 0x80 + c % 64] from by
          rw [utf8EncodeChar, if_neg hA, if_neg hB, if_neg hC]]
        refine ⟨0xF0 + c / 262144,
          (0x80 + c / 4096 % 64) :: (0x80 + c / 64 % 64) :: (0x80 + c % 64) :: rest, by simp, ?_⟩
        rw [utf8DecodeStep.eq_def, if_neg (by omega), if_neg (by omega), if_neg (by omega),
          if_neg (by omega), if_pos (by omega)]
        dsimp only
        rw [if_pos (show (isCont (0x80 + c / 4096 % 64) = true ∧
            isCont (0x80 + c / 64 % 64) = true ∧ isCont (0x80 + c % 64) = true)
          from by refine ⟨?_, ?_, ?_⟩ <;> (simp [isCont]; omega))]
        rw [if_pos (by constructor <;> omega)]
        congr 2
        omega

theorem utf8DecodeAux_encode : ∀ (s : List Nat), (∀ c ∈ s, ValidCodepoint c) →
    ∀ fuel, s.length ≤ fuel → utf8DecodeAux fuel (utf8Encode s) = some s := by
  intro s
  induction s with
  | nil =>
    intro _ fuel _
    cases fuel <;> rfl
  | cons c s ih =>
    intro h fuel hf
    cases fuel with
    | zero => simp at hf
    | succ f =>
      have hc : ValidCodepoint c := h c (by simp)
      have hs : ∀ x ∈ s, ValidCodepoint x := fun x hx => h x (by simp [hx])
      obtain ⟨head, tail, heq, hstep⟩ := utf8DecodeStep_encodeChar hc (utf8Encode s)
      rw [show utf8Encode (c :: s) = utf8EncodeChar c ++ utf8Encode s from
        List.flatMap_cons c s utf8EncodeChar, heq]
      rw [utf8DecodeAux, hstep]
      dsimp only
      rw [ih hs f (by simpa using hf)]
      rfl

theorem utf8Encode_length_ge (s : List Nat) : s.length ≤ (utf8Encode s).length := by
  induction s with
  | nil => simp [utf8Encode]
  | cons c s ih =>
    rw [show utf8Encode (c :: s) = utf8EncodeChar c ++ utf8Encode s from
      List.flatMap_cons c s utf8EncodeChar]
    rw [List.length_append, List.length_cons]
    have : 1 ≤ (utf8EncodeChar c).length := by
      cases hn : utf8EncodeChar c with
      | nil => exact absurd hn (utf8EncodeChar_ne_nil c)
      | cons _ _ => simp
    omega

theorem utf8_roundtrip (s : List Nat) (h : ∀ c ∈ s, ValidCodepoint c) :
    utf8Decode (utf8Encode s) = some s :=
  utf8DecodeAux_encode s h (utf8Encode s).length (utf8Encode_length_ge s)

theorem utf8Encode_ne_nil {s : List Nat} (h : s ≠ []) : utf8Encode s ≠ [] := by
  cases s with
  | nil => exact absurd rfl h
  | cons c s =>
    rw [show utf8Encode (c :: s) = utf8EncodeChar c ++ utf8Encode s from
      List.flatMap_cons c s utf8EncodeChar]
    intro hn
    exact utf8EncodeChar_ne_nil c (List.append_eq_nil.mp hn).1

theorem utf8Encode_lt {s : List Nat} (h : ∀ c ∈ s, ValidCodepoint c) :
    ∀ b ∈ utf8Encode s, b < 256 := by
  intro b hb
  unfold utf8Encode at hb
  rw [List.mem_flatMap] at hb
  obtain ⟨c, hc, hbc⟩ := hb
  exact utf8EncodeChar_lt (h c hc) b hbc

/-! ### Round-trip and failure behaviour of the cipher -/

theorem tokenShapeOk_body_pad {body : List Char} {k : Nat}
    (hurl : ∀ c ∈ body, isUrlB64Char c = true) (hne : body ≠ []) (hk : k ≤ 2) :
    tokenShapeOk (body ++ List.replicate k '=') = true := by
  have hpad : isUrlB64Char '=' = false := by decide
  have htake : List.takeWhile isUrlB64Char body = body := List.takeWhile_eq_self_iff.mpr hurl
  have hdrop : List.dropWhile isUrlB64Char body = [] := List.dropWhile_eq_nil_iff.mpr hurl
  have h1 : List.takeWhile isUrlB64Char (body ++ List.replicate k '=') = body := by
    rw [List.takeWhile_append, htake, if_pos rfl, List.takeWhile_replicate, hpad]
    simp
  have h2 : List.dropWhile isUrlB64Char (body ++ List.replicate k '=') =
      List.replicate k '=' := by
    rw [List.dropWhile_append, hdrop, List.dropWhile_replicate, hpad]
    simp
  unfold tokenShapeOk
  simp only [h1, h2, decide_eq_true_eq]
  constructor
  · simp [hne]
  · interval_cases k
    · simp
    · simp [List.replicate]
    · simp [List.replicate]

theorem decrypt_encrypt (key s : List Nat) (hk : ∀ b ∈ key, b < 256)
    (hs : ∀ c ∈ s, ValidCodepoint c) (hne : s ≠ []) :
    decrypt key (encrypt key s) = .ok s := by
  have hbytes : ∀ b ∈ xorKey key (utf8Encode s), b < 256 :=
    xorKey_lt key hk _ (utf8Encode_lt hs)
  have hbne : xorKey key (utf8Encode s) ≠ [] := by
    intro h0
    have := length_xorKey key (utf8Encode s)
    rw [h0] at this
    exact utf8Encode_ne_nil hne (List.length_eq_zero.mp this.symm)
  obtain ⟨body, k, henc, hstrip, hurl, hkpad, hk2, hne2⟩ :=
    b64Encode_structure (xorKey key (utf8Encode s)) hbytes
  have hbody_ne : body ≠ [] := hne2.resolve_left hbne
  have hencr : encrypt key s = body := hstrip
  rw [hencr]
  unfold decrypt
  rw [show padLen body.length = k from hkpad.symm]
  have hpadded : body ++ List.replicate k '=' = b64EncodePadded (xorKey key (utf8Encode s)) :=
    henc.symm
  have hshape := tokenShapeOk_body_pad hurl hbody_ne hk2
  rw [if_neg (by rw [hshape]; simp)]
  rw [hpadded, b64_roundtrip _ hbytes]
  dsimp only
  rw [xorKey_xorKey, utf8_roundtrip s hs]

theorem dropWhile_append_length_ge (p : Char → Bool) :
    ∀ (xs ys : List Char), (List.dropWhile p ys).length ≤ (List.dropWhile p (xs ++ ys)).length
  | [], _ => le_refl _
  | x :: xs, ys => by
    rw [List.cons_append, List.dropWhile_cons]
    by_cases hx : p x = true
    · rw [if_pos hx]
      exact dropWhile_append_length_ge p xs ys
    · rw [if_neg hx]
      have h1 : (List.dropWhile p ys).length ≤ ys.length :=
        (List.dropWhile_sublist p).length_le
    
      simp only [List.length_cons, List.length_append]
      omega

theorem tokenShapeOk_false_of_badChar {t : List Char} {c : Char} (hc : c ∈ t)
    (hbad : isUrlB64Char c = false) (hne : c ≠ '=') (pad : Nat) :
    tokenShapeOk (t ++ List.replicate pad '=') = false := by
  by_contra hshape
  rw [Bool.not_eq_false] at hshape
  unfold tokenShapeOk at hshape
  simp only [decide_eq_true_eq] at hshape
  obtain ⟨-, hrest⟩ := hshape
  have hmem : c ∈ t ++ List.replicate pad '=' := List.mem_append_left _ hc
  have hsplit := List.takeWhile_append_dropWhile isUrlB64Char (t ++ List.replicate pad '=')
  rw [← hsplit] at hmem
  rcases List.mem_append.mp hmem with h | h
  · have := List.mem_takeWhile_imp h
    rw [hbad] at this
    exact absurd this (by simp)
  · rcases hrest with hr | hr | hr <;> rw [hr] at h
    · exact absurd h (List.not_mem_nil c)
    · simp only [List.mem_singleton] at h
      exact hne h
    · simp only [List.mem_cons, List.not_mem_nil, or_false] at h
      rcases h with h | h <;> exact hne h

theorem tokenShapeOk_false_of_three_pads (t : List Char) :
    tokenShapeOk (t ++ List.replicate 3 '=') = false := by
  by_contra hshape
  rw [Bool.not_eq_false] at hshape
  unfold tokenShapeOk at hshape
  simp only [decide_eq_true_eq] at hshape
  obtain ⟨-, hrest⟩ := hshape
  have hlen : 3 ≤ (List.dropWhile isUrlB64Char (t ++ List.replicate 3 '=')).length := by
    have h := dropWhile_append_length_ge isUrlB64Char t (List.replicate 3 '=')
    rw [List.dropWhile_replicate] at h
    have : isUrlB64Char '=' = false := by decide
    rw [this] at h
    simpa using h
  rcases hrest with hr | hr | hr <;> rw [hr] at hlen <;> simp at hlen

theorem decrypt_error_of_shape_false {key : List Nat} {t : List Char}
    (h : tokenShapeOk (t ++ List.replicate (padLen t.length) '=') = false) :
    decrypt key t = .error "Invalid encrypted payload" := by
  unfold decrypt
  rw [if_pos (by rw [h]; simp)]

/-- C1 (counterexample): the round-trip law fails for the empty string.
`encrypt` maps `""` to the empty token, and `decrypt` rejects the empty
token because the shape regex `[A-Za-z0-9_-]+=?=?` requires at least one
character, so `decrypt(encrypt(""))` raises `ValueError` instead of
returning `""` (shown for a 64-byte key, matching `os.urandom(64)`). -/
theorem claimC1_counterexample :
    encrypt (List.replicate 64 7) [] = [] ∧
    decrypt (List.replicate 64 7) (encrypt (List.replicate 64 7) []) =
      .error "Invalid encrypted payload" :=
  ⟨rfl, rfl⟩

/-- C1 (amended): for every byte-valued key and every non-empty sequence
of Unicode scalar values, decrypting the encryption returns the original
plaintext: `decrypt key (encrypt key s) = ok s`. -/
theorem claimC1_roundtrip (key s : List Nat) (hk : ∀ b ∈ key, b < 256)
    (hs : ∀ c ∈ s, ValidCodepoint c) (hne : s ≠ []) :
    decrypt key (encrypt key s) = .ok s :=
  decrypt_encrypt key s hk hs hne

/-- Witness for C1: the round trip at the key `[7]` and plaintext `"A"`. -/
theorem claimC1_roundtrip_witness :
    decrypt [7] (encrypt [7] [65]) = .ok [65] :=
  claimC1_roundtrip [7] [65] (by decide) (by decide) (by decide)

/-- C8 (counterexample): a corrupted token need not fail.  With the key
byte `0`, `encrypt "A"` is the token `QQ`; altering its second character
to `g` yields a token `decrypt` happily accepts, returning the different
plaintext `B`.  The cipher has no integrity check, so `decrypt` on a
corrupted token can silently return garbage. -/
theorem claimC8_counterexample :
    encrypt [0] [65] = ['Q', 'Q'] ∧
    decrypt [0] ['Q', 'g'] = .ok [66] ∧ (66 : Nat) ≠ 65 :=
  ⟨rfl, rfl, by decide⟩

/-- C8 (amended): `decrypt` does fail with `InvalidToken` on every token
that is not shaped like URL-safe base64: any token containing a character
outside `[A-Za-z0-9_-]` other than `=`, and any token whose length is
congruent to 1 mod 4 (for which no padding can give a valid length).
A corrupted token that stays inside the alphabet may instead be accepted
and yield different plaintext, as the counterexample shows. -/
theorem claimC8_invalid_token (key : List Nat) (t : List Char)
    (h : (∃ c ∈ t, isUrlB64Char c = false ∧ c ≠ '=') ∨ t.length % 4 = 1) :
    decrypt key t = .error "Invalid encrypted payload" := by
  apply decrypt_error_of_shape_false
  rcases h with ⟨c, hc, hbad, hne⟩ | hlen
  · exact tokenShapeOk_false_of_badChar hc hbad hne _
  · have h3 : padLen t.length = 3 := by
      unfold padLen
      omega
    rw [h3]
    exact tokenShapeOk_false_of_three_pads t
/-- Witness for C8: `decrypt` rejects the token `@@@@` (bad character)
and the token `AAAAA` (length 5 ≡ 1 mod 4) for the key `[1]`. -/
theorem claimC8_invalid_token_witness :
    decrypt [1] ['@', '@', '@', '@'] = .error "Invalid encrypted payload" ∧
    decrypt [1] ['A', 'A', 'A', 'A', 'A'] = .error "Invalid encrypted payload" :=
  ⟨claimC8_invalid_token [1] _ (Or.inl ⟨'@', by decide, by decide, by decide⟩),
   claimC8_invalid_token [1] _ (Or.inr (by decide))⟩

/-! ## Python values and JSON (model of the `json` standard library)

`PyVal` models the Python values produced by `json.loads` as used by the
source: `None`, booleans, integers, strings, lists and (insertion-ordered)
dicts.  Restrictions of the model, none of which any claim depends on:
JSON floats are rejected rather than parsed, `\uXXXX` escapes must denote
non-surrogate scalars, and duplicate keys are kept instead of collapsed to
the last occurrence. -/

inductive PyVal where
  | pynone
  | pybool (b : Bool)
  | pyint (n : Int)
  | pystr (s : String)
  | pylist (xs : List PyVal)
  | pydict (kvs : List (String × PyVal))

/-- Index of a standard-alphabet base64 character (`+`/`/` instead of
`-`/`_`), as used by `base64.b64decode` in `utils.decode_bundle`. -/
def b64StdIndex (c : Char) : Option Nat :=
  let v := c.toNat
  if 65 ≤ v ∧ v ≤ 90 then some (v - 65)
  else if 97 ≤ v ∧ v ≤ 122 then some (26 + (v - 97))
  else if 48 ≤ v ∧ v ≤ 57 then some (52 + (v - 48))
  else if c = '+' then some 62
  else if c = '/' then some 63
  else none

/-- `base64.b64decode` on properly padded input (standard alphabet).  As
with the URL-safe variant, inputs whose final quad is malformed are
rejected, matching Python on the padded inputs the source produces. -/
def b64DecodeStdPadded : List Char → Option (List Nat)
  | [] => some []
  | c1 :: c2 :: c3 :: c4 :: rest =>
    match b64StdIndex c1, b64StdIndex c2 with
    | some n1, some n2 =>
      if c3 = '=' then
        if c4 = '=' ∧ rest = [] then some [n1 * 4 + n2 / 16] else none
      else
        match b64StdIndex c3 with
        | some n3 =>
          if c4 = '=' then
            if rest = [] then some [n1 * 4 + n2 / 16, n2 % 16 * 16 + n3 / 4] else none
          else
            match b64StdIndex c4 with
            | some n4 =>
              (b64DecodeStdPadded rest).map
                (fun tail => (n1 * 4 + n2 / 16) :: (n2 % 16 * 16 + n3 / 4) ::
                  (n3 % 4 * 64 + n4) :: tail)
            | none => none
        | none => none
    | _, _ => none
  | _ => none

/-- `base64.b64decode(s + "=" * (-len(s) % 4))`, the padded decode the
source performs on every bundle candidate and field value. -/
def pyB64Decode (s : String) : Option (List Nat) :=
  b64DecodeStdPadded (s.data ++ List.replicate (padLen s.length) '=')

/-- Decode bytes as UTF-8 into a Lean string (`bytes.decode("utf-8")`).
The scalar checks in `utf8DecodeStep` make `Char.ofNat` safe here. -/
def utf8DecodeString (bs : List Nat) : Option String :=
  (utf8Decode bs).map (fun cps => String.mk (cps.map Char.ofNat))

/-- ASCII whitespace, covering the whitespace the source's inputs use. -/
def isPyWs (c : Char) : Bool :=
  c = ' ' ∨ c = '\t' ∨ c = '\n' ∨ c = '\x0d' ∨ c = '\x0b' ∨ c = '\x0c'

/-- Python `str.strip()` (ASCII-whitespace model). -/
def pyStrip (s : String) : String :=
  String.mk (((s.data.dropWhile isPyWs).reverse.dropWhile isPyWs).reverse)

/-- JSON tokens. -/
inductive JTok where
  | lbrace | rbrace | lbrack | rbrack | comma | colon
  | jnull | jtrue | jfalse
  | jstr (s : String)
  | jint (n : Int)

/-- Value of a hex digit. -/
def hexVal (c : Char) : Option Nat :=
  let v := c.toNat
  if 48 ≤ v ∧ v ≤ 57 then some (v - 48)
  else if 97 ≤ v ∧ v ≤ 102 then some (v - 97 + 10)
  else if 65 ≤ v ∧ v ≤ 70 then some (v - 65 + 10)
  else none

/-- Scan a JSON string body after the opening quote, returning the decoded
characters and the input after the closing quote. -/
def jsonScanStr : List Char → List Char → Option (List Char × List Char)
  | acc, '"' :: rest => some (acc.reverse, rest)
  | acc, '\\' :: 'u' :: h1 :: h2 :: h3 :: h4 :: rest =>
    match hexVal h1, hexVal h2, hexVal h3, hexVal h4 with
    | some v1, some v2, some v3, some v4 =>
      let n := ((v1 * 16 + v2) * 16 + v3) * 16 + v4
      if n < 0xD800 ∨ 0xE000 ≤ n then jsonScanStr (Char.ofNat n :: acc) rest
      else none
    | _, _, _, _ => none
  | acc, '\\' :: e :: rest =>
    if e = '"' then jsonScanStr ('"' :: acc) rest
    else if e = '\\' then jsonScanStr ('\\' :: acc) rest
    else if e = '/' then jsonScanStr ('/' :: acc) rest
    else if e = 'b' then jsonScanStr ('\x08' :: acc) rest
    else if e = 'f' then jsonScanStr ('\x0c' :: acc) rest
    else if e = 'n' then jsonScanStr ('\n' :: acc) rest
    else if e = 'r' then jsonScanStr ('\x0d' :: acc) rest
    else if e = 't' then jsonScanStr ('\t' :: acc) rest
    else none
  | acc, c :: rest =>
    if c.toNat < 0x20 then none else jsonScanStr (c :: acc) rest
  | _, [] => none

/-- Digits of a JSON integer to its value. -/
def digitsToNat (ds : List Char) : Nat :=
  ds.foldl (fun a c => a * 10 + (c.toNat - 48)) 0

/-- JSON whitespace. -/
def isJsonWs (c : Char) : Bool :=
  c = ' ' ∨ c = '\t' ∨ c = '\n' ∨ c = '\x0d'

/-- Tokenize JSON text; the fuel (set to the length by `jsonParse`) bounds
the number of tokens.  Integer literals followed by `.`, `e` or `E` are
floats, which this model rejects. -/
def jsonLexAux : Nat → List Char → Option (List JTok)
  | 0, _ => none
  | _, [] => some []
  | fuel + 1, c :: cs =>
    if isJsonWs c then jsonLexAux fuel cs
    else if c = '{' then (jsonLexAux fuel cs).map (.lbrace :: ·)
    else if c = '}' then (jsonLexAux fuel cs).map (.rbrace :: ·)
    else if c = '[' then (jsonLexAux fuel cs).map (.lbrack :: ·)
    else if c = ']' then (jsonLexAux fuel cs).map (.rbrack :: ·)
    else if c = ',' then (jsonLexAux fuel cs).map (.comma :: ·)
    else if c = ':' then (jsonLexAux fuel cs).map (.colon :: ·)
    else if c = '"' then
      match jsonScanStr [] cs with
      | some (str, rest) => (jsonLexAux fuel rest).map (.jstr (String.mk str) :: ·)
      | none => none
    else if c = 'n' then
      match cs with
      | 'u' :: 'l' :: 'l' :: rest => (jsonLexAux fuel rest).map (.jnull :: ·)
      | _ => none
    else if c = 't' then
      match cs with
      | 'r' :: 'u' :: 'e' :: rest => (jsonLexAux fuel rest).map (.jtrue :: ·)
      | _ => none
    else if c = 'f' then
      match cs with
      | 'a' :: 'l' :: 's' :: 'e' :: rest => (jsonLexAux fuel rest).map (.jfalse :: ·)
      | _ => none
    else if c = '-' ∨ c.isDigit then
      let neg := c = '-'
      let body := if neg then cs else c :: cs
      let ds := body.takeWhile Char.isDigit
      let rest := body.dropWhile Char.isDigit
      if ds = [] then none
      else if ds.length > 1 ∧ ds.headD '0' = '0' then none
      else
        match rest with
        | r :: _ =>
          if r = '.' ∨ r = 'e' ∨ r = 'E' then none
          else
            (jsonLexAux fuel rest).map
              (.jint (if neg then -(digitsToNat ds : Int) else (digitsToNat ds : Int)) :: ·)
        | [] =>
          (jsonLexAux fuel rest).map
            (.jint (if neg then -(digitsToNat ds : Int) else (digitsToNat ds : Int)) :: ·)
    else none

/-- A partially built JSON container. -/
inductive JFrame where
  | jarr (acc : List PyVal)
  | jobj (acc : List (String × PyVal)) (key : String)

/-- Whether the machine is about to read a value or has just finished
one. -/
inductive JMode where
  | value
  | close (v : PyVal)

/-- Shift-reduce machine over the token stream: `value` mode consumes the
next value's first token, `close v` mode attaches the finished value `v`
to the enclosing container (or accepts at end of input).  Every step
consumes a token, so fuel `tokens + 1` suffices. -/
def jsonMachine : Nat → JMode → List JTok → List JFrame → Option PyVal
  | 0, _, _, _ => none
  | fuel + 1, .value, toks, stack =>
    match toks with
    | .jnull :: rest => jsonMachine fuel (.close .pynone) rest stack
    | .jtrue :: rest => jsonMachine fuel (.close (.pybool true)) rest stack
    | .jfalse :: rest => jsonMachine fuel (.close (.pybool false)) rest stack
    | .jstr s :: rest => jsonMachine fuel (.close (.pystr s)) rest stack
    | .jint n :: rest => jsonMachine fuel (.close (.pyint n)) rest stack
    | .lbrack :: .rbrack :: rest => jsonMachine fuel (.close (.pylist [])) rest stack
    | .lbrack :: rest => jsonMachine fuel .value rest (.jarr [] :: stack)
    | .lbrace :: .rbrace :: rest => jsonMachine fuel (.close (.pydict [])) rest stack
    | .lbrace :: .jstr k :: .colon :: rest => jsonMachine fuel .value rest (.jobj [] k :: stack)
    | _ => none
  | fuel + 1, .close v, toks, stack =>
    match stack with
    | [] => match toks with
      | [] => some v
      | _ => none
    | .jarr acc :: stk =>
      match toks with
      | .comma :: rest => jsonMachine fuel .value rest (.jarr (v :: acc) :: stk)
      | .rbrack :: rest => jsonMachine fuel (.close (.pylist (v :: acc).reverse)) rest stk
      | _ => none
    | .jobj acc k :: stk =>
      match toks with
      | .comma :: .jstr k2 :: .colon :: rest =>
          jsonMachine fuel .value rest (.jobj ((k, v) :: acc) k2 :: stk)
      | .rbrace :: rest => jsonMachine fuel (.close (.pydict ((k, v) :: acc).reverse)) rest stk
      | _ => none

/-- Model of `json.loads` on the domain the source exercises. -/
def jsonParse (s : String) : Option PyVal :=
  match jsonLexAux (s.length + 1) s.data with
  | none => none
  | some toks => jsonMachine (toks.length + 1) .value toks []

/-! ## Bundle decoder (`utils.decode_bundle`) -/

/-- Quote characters, the regex class `["\']`. -/
def isQuoteChar (c : Char) : Bool :=
  c = '"' ∨ c = '\''

/-- The regex class `[A-Za-z0-9+/=]` of base64-looking characters. -/
def isB64StdClass (c : Char) : Bool :=
  c.isAlphanum ∨ c = '+' ∨ c = '/' ∨ c = '='

/-- Consume an exact literal prefix. -/
def dropLit : List Char → List Char → Option (List Char)
  | [], l => some l
  | c :: cs, d :: ds => if c = d then dropLit cs ds else none
  | _ :: _, [] => none

/-- Consume `\s*`. -/
def skipWsR (l : List Char) : List Char :=
  l.dropWhile isPyWs

/-- Consume one quote character. -/
def dropQuote : List Char → Option (List Char)
  | c :: cs => if isQuoteChar c then some cs else none
  | [] => none

/-- Match a quoted run of characters from `cls` of length at least `low`,
optionally required to start with `pre`; the run is maximal (the regex
quantifier is greedy and the class excludes quotes, so no backtracking
can produce a different match).  Returns the capture and the input after
the closing quote. -/
def matchQuotedRun (pre : List Char) (cls : Char → Bool) (low : Nat) (l : List Char) :
    Option (String × List Char) := do
  let l1 ← dropQuote l
  let l2 ← dropLit pre l1
  let run := l2.takeWhile cls
  let rest := l2.dropWhile cls
  if run.length < low then none
  else
    let rest2 ← dropQuote rest
    some (String.mk (pre ++ run), rest2)

/-- Matcher for `JSON\.parse\s*\(\s*atob\s*\(\s*["\']([^"\']{40,})["\']\s*\)\s*\)`. -/
def matchJsonParseAtob (l : List Char) : Option (String × List Char) := do
  let l ← dropLit "JSON.parse".data l
  let l ← dropLit "(".data (skipWsR l)
  let l ← dropLit "atob".data (skipWsR l)
  let l ← dropLit "(".data (skipWsR l)
  let l ← dropQuote (skipWsR l)
  let run := l.takeWhile (fun c => ¬isQuoteChar c)
  let rest := l.dropWhile (fun c => ¬isQuoteChar c)
  if run.length < 40 then none
  else do
    let rest ← dropQuote rest
    let rest ← dropLit ")".data (skipWsR rest)
    let rest ← dropLit ")".data (skipWsR rest)
    some (String.mk run, rest)

/-- Matcher for `atob\s*\(\s*["\'](eyJ[A-Za-z0-9+/=]{40,})["\']\s*\)`. -/
def matchAtob (l : List Char) : Option (String × List Char) := do
  let l ← dropLit "atob".data l
  let l ← dropLit "(".data (skipWsR l)
  let (cap, rest) ← matchQuotedRun "eyJ".data isB64StdClass 40 (skipWsR l)
  let rest ← dropLit ")".data (skipWsR rest)
  some (cap, rest)

/-- The identifier part `[A-Za-z_$][\w$]*` of a declaration. -/
def dropIdent : List Char → Option (List Char)
  | c :: cs =>
    if c.isAlpha ∨ c = '_' ∨ c = '$' then
      some (cs.dropWhile (fun d => d.isAlphanum ∨ d = '_' ∨ d = '$'))
    else none
  | [] => none

/-- Matcher for
`(?:const|let|var)\s+[A-Za-z_$][\w$]*\s*=\s*["\'](eyJ[A-Za-z0-9+/=]{40,})["\']`. -/
def matchDecl (l : List Char) : Option (String × List Char) :=
  let afterKw : Option (List Char) :=
    match dropLit "const".data l with
    | some r => some r
    | none =>
      match dropLit "let".data l with
      | some r => some r
      | none => dropLit "var".data l
  match afterKw with
  | none => none
  | some r => do
    let r1 := r.takeWhile isPyWs
    if r1.isEmpty then none
    else do
      let r2 ← dropIdent (r.dropWhile isPyWs)
      let r3 ← dropLit "=".data (skipWsR r2)
      matchQuotedRun "eyJ".data isB64StdClass 40 (skipWsR r3)

/-- Matcher for `["\'](eyJ[A-Za-z0-9+/=]{40,})["\']`. -/
def matchBareEyJ (l : List Char) : Option (String × List Char) :=
  matchQuotedRun "eyJ".data isB64StdClass 40 l

/-- Matcher for `["\']([A-Za-z0-9+/=]{80,})["\']`. -/
def matchBareLong (l : List Char) : Option (String × List Char) :=
  matchQuotedRun [] isB64StdClass 80 l

/-- `re.findall`: scan left to right, emitting non-overlapping matches and
restarting after each match's end.  The fuel (the length, set by
`scanAll`) suffices because every step advances at least one character;
the `min`-guard on the matcher's leftover makes that a theorem without
restricting any actual matcher. -/
def scanAllAux (m : List Char → Option (String × List Char)) :
    Nat → List Char → List String
  | 0, _ => []
  | _, [] => []
  | fuel + 1, c :: cs =>
    match m (c :: cs) with
    | some (cap, rest) =>
      cap :: scanAllAux m fuel (if rest.length ≤ cs.length then rest else cs)
    | none => scanAllAux m fuel cs

/-- All captures of a matcher over a text. -/
def scanAll (m : List Char → Option (String × List Char)) (l : List Char) : List String :=
  scanAllAux m (l.length + 1) l

/-- Keep the first occurrence of each element. -/
def dedupFirst : List String → List String
  | [] => []
  | s :: rest => s :: (dedupFirst rest).filter (· ≠ s)

/-- The candidate set of `decode_bundle`: the stripped response text plus
the captures of the five extraction patterns.  The source collects these
into a Python `set`, whose iteration order is unspecified; the model fixes
first-insertion order, and no theorem below depends on the order. -/
def candidatesOf (text : String) : List String :=
  dedupFirst
    (pyStrip text ::
      (scanAll matchJsonParseAtob text.data ++ scanAll matchAtob text.data ++
        scanAll matchDecl text.data ++ scanAll matchBareEyJ text.data ++
        scanAll matchBareLong text.data))

/-- Python `key in data` under `any(...)`: substring test on strings,
element equality on lists, key lookup on dicts; `in` on `None`, booleans
or integers raises `TypeError`, modelled as an error. -/
def pyContainsKey (v : PyVal) (k : String) : Except Unit Bool :=
  match v with
  | .pystr s => .ok (decide (List.IsInfix k.data s.data))
  | .pylist xs => .ok (xs.any (fun x => match x with | .pystr s => s = k | _ => false))
  | .pydict kvs => .ok (kvs.any (fun kv => kv.1 = k))
  | _ => .error ()

/-- `any(key in data for key in ("b_ts", "b_sig", "b_host", "b_rnd"))`,
short-circuiting left to right. -/
def anyMarkerKey (v : PyVal) : Except Unit Bool := do
  let b1 ← pyContainsKey v "b_ts"
  if b1 then return true
  let b2 ← pyContainsKey v "b_sig"
  if b2 then return true
  let b3 ← pyContainsKey v "b_host"
  if b3 then return true
  pyContainsKey v "b_rnd"

/-- `normalize`: opportunistically base64-decode every string-valued
field, keeping the original on any failure. -/
def normalizeField (v : PyVal) : PyVal :=
  match v with
  | .pystr s =>
    match pyB64Decode s with
    | none => .pystr s
    | some bs =>
      match utf8DecodeString bs with
      | none => .pystr s
      | some t => .pystr t
  | other => other

/-- `normalize` over the items of the parsed dict. -/
def normalizeBundle (kvs : List (String × PyVal)) : List (String × PyVal) :=
  kvs.map (fun kv => (kv.1, normalizeField kv.2))

/-- `parse_candidate`: base64-decode and UTF-8-decode the candidate and
JSON-parse the result, returning `none` on any of those failures (the
source catches them); then run the marker-key check, whose `TypeError` on
non-iterable JSON values, and the `AttributeError` of `normalize` on
marker-passing non-dict values, propagate as errors. -/
def parseCandidate (c : String) : Except Unit (Option (List (String × PyVal))) :=
  match pyB64Decode c with
  | none => .ok none
  | some bs =>
    match utf8DecodeString bs with
    | none => .ok none
    | some decoded =>
      match jsonParse decoded with
      | none => .ok none
      | some data => do
        let b ← anyMarkerKey data
        if b then
          match data with
          | .pydict kvs => .ok (some (normalizeBundle kvs))
          | _ => .error ()
        else .ok none

/-- The candidate loop of `decode_bundle`: Python's `if decoded:` skips
falsy (empty) dicts, and a candidate whose check raises propagates the
exception. -/
def decodeBundleGo : List String → Except Unit (List (String × PyVal))
  | [] => .ok []
  | c :: cs =>
    match parseCandidate c with
    | .error e => .error e
    | .ok none => decodeBundleGo cs
    | .ok (some d) => if d.isEmpty then decodeBundleGo cs else .ok d

/-- Embedding of `utils.decode_bundle`. -/
def decodeBundle (text : String) : Except Unit (List (String × PyVal)) :=
  decodeBundleGo (candidatesOf text)

theorem decodeBundleGo_all_none :
    ∀ cs : List String, (∀ c ∈ cs, parseCandidate c = .ok none) →
      decodeBundleGo cs = .ok []
  | [], _ => rfl
  | c :: cs, h => by
    unfold decodeBundleGo
    rw [h c (by simp)]
    exact decodeBundleGo_all_none cs (fun x hx => h x (by simp [hx]))

theorem decodeBundleGo_ok_mem :
    ∀ cs : List String, ∀ d, decodeBundleGo cs = .ok d → d ≠ [] →
      ∃ c ∈ cs, parseCandidate c = .ok (some d)
  | [], d, h, hne => by
    rw [decodeBundleGo] at h
    cases h
    exact absurd rfl hne
  | c :: cs, d, h, hne => by
    rw [decodeBundleGo] at h
    revert h
    cases hp : parseCandidate c with
    | error e => intro h; cases h
    | ok o =>
      cases o with
      | none =>
        intro h
        obtain ⟨x, hx, hpx⟩ := decodeBundleGo_ok_mem cs d h hne
        exact ⟨x, by simp [hx], hpx⟩
      | some d2 =>
        dsimp only
        by_cases hd2 : d2.isEmpty
        · rw [if_pos hd2]
          intro h
          obtain ⟨x, hx, hpx⟩ := decodeBundleGo_ok_mem cs d h hne
          exact ⟨x, by simp [hx], hpx⟩
        · rw [if_neg hd2]
          intro h
          cases h
          exact ⟨c, by simp, hp⟩

/-- C5 (counterexample): when no candidate satisfies the conditions,
`decode_bundle` does not fail with `BundleNotFound` — it returns the empty
dict.  On the empty response the only candidate is the stripped text `""`,
which fails to JSON-parse, and the result is `ok {}` rather than an
error. -/
theorem claimC5_counterexample :
    candidatesOf "" = [""] ∧ parseCandidate "" = .ok none ∧
    decodeBundle "" = .ok [] :=
  ⟨rfl, rfl, rfl⟩

/-- C5 (amended): the decoder tries the candidate set (an unordered
Python `set`, not a prioritized sequence) consisting of the stripped text
and the captures of the five patterns; it returns the normalized parse of
a candidate that base64-decodes, JSON-parses and contains a marker key,
and when no candidate satisfies the conditions it returns the empty dict
instead of failing. -/
theorem claimC5_bundle_behaviour (text : String) :
    ((∀ c ∈ candidatesOf text, parseCandidate c = .ok none) →
      decodeBundle text = .ok []) ∧
    (∀ d, decodeBundle text = .ok d → d ≠ [] →
      ∃ c ∈ candidatesOf text, parseCandidate c = .ok (some d)) :=
  ⟨fun h => decodeBundleGo_all_none _ h,
   fun d h hne => decodeBundleGo_ok_mem _ d h hne⟩

/-- Witness for C5: a concrete embedded bundle (the base64 encoding of
a JSON object with `b_ts`, `b_sig` and `b_host`) is decoded, so some
candidate satisfies all three conditions; field values are normalized
(`"MTIzNDU2"` to `"123456"`, the non-base64 `"not-base64"` kept). -/
theorem claimC5_bundle_behaviour_witness :
    ∃ c ∈ candidatesOf
      "eyJiX3RzIjoiTVRJek5EVTIiLCJiX3NpZyI6Im5vdC1iYXNlNjQiLCJiX2hvc3QiOiJhRzl6ZEE9PSJ9",
      parseCandidate c =
        .ok (some [("b_ts", .pystr "123456"), ("b_sig", .pystr "not-base64"),
          ("b_host", .pystr "host")]) :=
  (claimC5_bundle_behaviour _).2 _ rfl (List.cons_ne_nil _ _)

/-! ## Stream resolution step 2: the iframe POST retry loop
(`StepDaddy.stream`, src/dlhd_proxy/step_daddy.py lines 220-251)

The POST to the iframe URL is abstracted as `env attempt`, the outcome of
the attempt-th request. -/

/-- Outcome of one POST to the iframe URL. -/
inductive PostOutcome where
  | curlError
  | httpError (code : Nat)
  | ok (body : String)

/-- `"CHANNEL_KEY" in response.text`. -/
def hasChannelKeyMarker (body : String) : Bool :=
  decide (List.IsInfix "CHANNEL_KEY".data body.data)

/-- The retry loop `for attempt in range(1, max_retries + 1)`: a
`CurlError` and any other exception (in particular the `HTTPError` of
`raise_for_status`) are both retried unless this was the final attempt,
in which case the exception propagates; a successful response breaks out
when it contains the marker and is otherwise retried, the last successful
body being kept in `source_response`.  Returns the final
`source_response` body and the number of attempts made. -/
def iframeRetryAux (env : Nat → PostOutcome) :
    Nat → Nat → Option String → Except PostOutcome (Option String × Nat)
  | attempt, 0, last => .ok (last, attempt - 1)
  | attempt, remaining + 1, last =>
    match env attempt with
    | .curlError =>
      if remaining = 0 then .error .curlError
      else iframeRetryAux env (attempt + 1) remaining last
    | .httpError c =>
      if remaining = 0 then .error (.httpError c)
      else iframeRetryAux env (attempt + 1) remaining last
    | .ok body =>
      if hasChannelKeyMarker body then .ok (some body, attempt)
      else iframeRetryAux env (attempt + 1) remaining (some body)

/-- The loop with `max_retries = 3`, starting at attempt 1 with no
response yet. -/
def iframeRetry (env : Nat → PostOutcome) : Except PostOutcome (Option String × Nat) :=
  iframeRetryAux env 1 3 none

theorem iframeRetryAux_ok_le (env : Nat → PostOutcome) :
    ∀ (remaining attempt : Nat) (last : Option String) (b : Option String) (n : Nat),
      iframeRetryAux env attempt remaining last = .ok (b, n) →
      n ≤ attempt + remaining - 1
  | 0, attempt, last, b, n, h => by
    rw [iframeRetryAux] at h
    cases h
    omega
  | remaining + 1, attempt, last, b, n, h => by
    rw [iframeRetryAux] at h
    revert h
    cases env attempt with
    | curlError =>
      dsimp only
      by_cases h0 : remaining = 0
      · rw [if_pos h0]
        intro h
        cases h
      · rw [if_neg h0]
        intro h
        have := iframeRetryAux_ok_le env remaining (attempt + 1) last b n h
        omega
    | httpError c =>
      dsimp only
      by_cases h0 : remaining = 0
      · rw [if_pos h0]
        intro h
        cases h
      · rw [if_neg h0]
        intro h
        have := iframeRetryAux_ok_le env remaining (attempt + 1) last b n h
        omega
    | ok body =>
      dsimp only
      by_cases hm : hasChannelKeyMarker body
      · rw [if_pos hm]
        intro h
        cases h
        omega
      · rw [if_neg hm]
        intro h
        have := iframeRetryAux_ok_le env remaining (attempt + 1) (some body) b n h
        omega

theorem iframeRetryAux_error_last (env : Nat → PostOutcome) :
    ∀ (remaining attempt : Nat) (last : Option String) (o : PostOutcome),
      iframeRetryAux env attempt remaining last = .error o →
      o = env (attempt + remaining - 1)
  | 0, attempt, last, o, h => by
    rw [iframeRetryAux] at h
    cases h
  | remaining + 1, attempt, last, o, h => by
    rw [iframeRetryAux] at h
    revert h
    cases he : env attempt with
    | curlError =>
      dsimp only
      by_cases h0 : remaining = 0
      · rw [if_pos h0]
        intro h
        cases h
        subst h0
        simpa using he.symm
      · rw [if_neg h0]
        intro h
        have := iframeRetryAux_error_last env remaining (attempt + 1) last o h
        rw [this]
        congr 1
        omega
    | httpError c =>
      dsimp only
      by_cases h0 : remaining = 0
      · rw [if_pos h0]
        intro h
        cases h
        subst h0
        simpa using he.symm
      · rw [if_neg h0]
        intro h
        have := iframeRetryAux_error_last env remaining (attempt + 1) last o h
        rw [this]
        congr 1
        omega
    | ok body =>
      dsimp only
      by_cases hm : hasChannelKeyMarker body
      · rw [if_pos hm]
        intro h
        cases h
      · rw [if_neg hm]
        intro h
        have := iframeRetryAux_error_last env remaining (attempt + 1) (some body) o h
        rw [this]
        congr 1
        omega

/-- C4 (counterexample): a non-transient HTTP error response is retried.
With an environment whose first POST yields an HTTP 500 error response and
whose second yields a marker-bearing page, the loop succeeds after two
attempts — had the HTTP error been terminal as claimed, the loop would
have propagated it on attempt 1. -/
theorem claimC4_counterexample :
    iframeRetry (fun a => if a = 1 then .httpError 500
      else .ok "const CHANNEL_KEY = \"k\";") =
      .ok (some "const CHANNEL_KEY = \"k\";", 2) :=
  rfl

/-- C4 (amended): the POST to the iframe URL is attempted at most 3
times, but every exception — transient transport error or HTTP error
response alike — is retried until the third attempt, whose exception
propagates (an exception can only escape from the final attempt); a
successful but marker-less response is also retried. -/
theorem claimC4_retry (env : Nat → PostOutcome) :
    (∀ b n, iframeRetry env = .ok (b, n) → n ≤ 3) ∧
    (∀ o, iframeRetry env = .error o → o = env 3) ∧
    (∀ c body, env 1 = .httpError c → env 2 = .ok body →
      hasChannelKeyMarker body = true → iframeRetry env = .ok (some body, 2)) := by
  refine ⟨?_, ?_, ?_⟩
  · intro b n h
    have := iframeRetryAux_ok_le env 3 1 none b n h
    omega
  · intro o h
    exact iframeRetryAux_error_last env 3 1 none o h
  · intro c body h1 h2 hm
    unfold iframeRetry
    simp [iframeRetryAux, h1, h2, hm]

/-- Witness for C4: in an environment failing with HTTP 404 on the first
attempt and succeeding with a marker page on the second, the loop returns
that page after 2 ≤ 3 attempts. -/
theorem claimC4_retry_witness :
    iframeRetry (fun a => if a = 1 then .httpError 404
      else .ok "xCHANNEL_KEYx") = .ok (some "xCHANNEL_KEYx", 2) ∧ (2 : Nat) ≤ 3 := by
  have h := claimC4_retry
    (fun a => if a = 1 then PostOutcome.httpError 404 else .ok "xCHANNEL_KEYx")
  have hok := h.2.2 404 "xCHANNEL_KEYx" rfl rfl (by decide)
  exact ⟨hok, h.1 (some "xCHANNEL_KEYx") 2 hok⟩

/-! ## Schedule fetcher (`StepDaddy.schedule`,
src/dlhd_proxy/step_daddy.py lines 364-379)

The HTTP session is abstracted as a map from URL to outcome; the
embedding additionally returns the list of URLs requested, so that the
absence of any fallback request is itself a theorem. -/

/-- Outcome of one `session.get`. -/
inductive FetchOutcome where
  | exc
  | resp (status : Nat) (body : String)

/-- Errors `schedule()` can raise. -/
inductive SchedErr where
  | transport
  | httpStatus (code : Nat)
  | invalidJson

/-- The one URL `schedule()` requests. -/
def scheduleUrl : String :=
  "https://thedaddy.top/schedule/schedule-generated.php"

/-- Embedding of `StepDaddy.schedule`: GET the JSON endpoint,
`raise_for_status`, parse JSON (raising
`ValueError("Invalid schedule response received")` on parse failure),
return the payload when it is a dict and the empty dict otherwise.
The second component is the list of URLs requested. -/
def scheduleFetch (env : String → FetchOutcome) :
    Except SchedErr PyVal × List String :=
  match env scheduleUrl with
  | .exc => (.error .transport, [scheduleUrl])
  | .resp st body =>
    if 400 ≤ st then (.error (.httpStatus st), [scheduleUrl])
    else
      match jsonParse body with
      | none => (.error .invalidJson, [scheduleUrl])
      | some (.pydict kvs) => (.ok (.pydict kvs), [scheduleUrl])
      | some _ => (.ok (.pydict []), [scheduleUrl])

/-- C3 (counterexample): on a 404 from the JSON endpoint the fetcher
raises that HTTP error immediately; it fetches no HTML fallback page even
in an environment where every other URL would serve a page, and it never
produces a `ScheduleUnavailable`-style aggregate error. -/
theorem claimC3_counterexample :
    scheduleFetch (fun u => if u = scheduleUrl then .resp 404 "Not Found"
      else .resp 200 "<html>schedule with events</html>") =
      (.error (.httpStatus 404), [scheduleUrl]) :=
  rfl

/-- C3 (amended): `schedule()` has no HTML fallback: it requests exactly
the JSON endpoint; a transport failure or an HTTP error status (including
auth/not-found classes) propagates as-is, invalid JSON raises a
`ValueError`, a JSON dict is returned unchanged, and any other JSON
payload yields the empty dict. -/
theorem claimC3_no_fallback (env : String → FetchOutcome) :
    (scheduleFetch env).2 = [scheduleUrl] ∧
    (env scheduleUrl = .exc → (scheduleFetch env).1 = .error .transport) ∧
    (∀ st body, env scheduleUrl = .resp st body → 400 ≤ st →
      (scheduleFetch env).1 = .error (.httpStatus st)) ∧
    (∀ st body kvs, env scheduleUrl = .resp st body → st < 400 →
      jsonParse body = some (.pydict kvs) →
      (scheduleFetch env).1 = .ok (.pydict kvs)) := by
  refine ⟨?_, ?_, ?_, ?_⟩
  · unfold scheduleFetch
    cases env scheduleUrl with
    | exc => rfl
    | resp st body =>
      dsimp only
      by_cases h : 400 ≤ st
      · rw [if_pos h]
      · rw [if_neg h]
        cases jsonParse body with
        | none => rfl
        | some v => cases v <;> rfl
  · intro h
    unfold scheduleFetch
    rw [h]
  · intro st body h hst
    unfold scheduleFetch
    rw [h]
    dsimp only
    rw [if_pos hst]
  · intro st body kvs h hst hj
    unfold scheduleFetch
    rw [h]
    dsimp only
    rw [if_neg (by omega), hj]

/-- Witness for C3: a healthy environment returning the JSON dict
`{"day": {}}` is passed through unchanged, and only the JSON endpoint is
requested. -/
theorem claimC3_no_fallback_witness :
    (scheduleFetch (fun _ => .resp 200 "\x7b\"day\": \x7b\x7d\x7d")).1 =
      .ok (.pydict [("day", .pydict [])]) ∧
    (scheduleFetch (fun _ => .resp 200 "\x7b\"day\": \x7b\x7d\x7d")).2 = [scheduleUrl] := by
  have h := claimC3_no_fallback (fun _ => .resp 200 "\x7b\"day\": \x7b\x7d\x7d")
  exact ⟨h.2.2.2 200 "\x7b\"day\": \x7b\x7d\x7d" [("day", .pydict [])] rfl (by omega) rfl, h.1⟩

/-! ## Channels and name disambiguation
(`StepDaddy`, src/dlhd_proxy/step_daddy.py) -/

/-- Embedding of the `Channel` model class. -/
structure Channel where
  id : String
  name : String
  tags : List String
  logo : String
deriving DecidableEq, Repr

/-- The decimal digit character of `n % 10`. -/
def natDigitChar (n : Nat) : Char :=
  Char.ofNat (48 + n % 10)

/-- Decimal digits of `n`, most significant first (model of Python
`str(int)` for the f-string `f"{name} ({index})"`); the fuel `n + 1`
always suffices. -/
def natToDigitsAux : Nat → Nat → List Char → List Char
  | 0, _, acc => acc
  | fuel + 1, n, acc =>
    if n < 10 then natDigitChar n :: acc
    else natToDigitsAux fuel (n / 10) (natDigitChar (n % 10) :: acc)

/-- Python `str` of a natural number. -/
def natRepr (n : Nat) : String :=
  String.mk (natToDigitsAux (n + 1) n [])

/-- Association-list read with default, Python `d.get(k, default)`. -/
def alGetD (l : List (String × Nat)) (k : String) (d : Nat) : Nat :=
  match l.find? (fun kv => kv.1 = k) with
  | some kv => kv.2
  | none => d

/-- Association-list write, Python `d[k] = v`: update in place, keeping
insertion order, appending when the key is new. -/
def alSet (l : List (String × Nat)) (k : String) (v : Nat) : List (String × Nat) :=
  match l with
  | [] => [(k, v)]
  | (k2, v2) :: rest => if k2 = k then (k, v) :: rest else (k2, v2) :: alSet rest k v

/-- First loop of `_enumerate_duplicate_names`:
`counts[channel.name] = counts.get(channel.name, 0) + 1`. -/
def countNames (chs : List Channel) : List (String × Nat) :=
  chs.foldl (fun counts ch => alSet counts ch.name (alGetD counts ch.name 0 + 1)) []

/-- Second loop of `_enumerate_duplicate_names`: append `" (n)"`, with
`n` the 1-based occurrence index, to every channel whose name occurs more
than once. -/
def enumApply (counts : List (String × Nat)) :
    List (String × Nat) → List Channel → List Channel
  | _, [] => []
  | seen, ch :: rest =>
    if alGetD counts ch.name 0 > 1 then
      let index := alGetD seen ch.name 0 + 1
      { ch with name := ch.name ++ " (" ++ natRepr index ++ ")" } ::
        enumApply counts (alSet seen ch.name index) rest
    else ch :: enumApply counts seen rest

/-- Embedding of `StepDaddy._enumerate_duplicate_names` (the source
mutates the list in place; the embedding returns the updated list). -/
def enumerateDuplicateNames (chs : List Channel) : List Channel :=
  enumApply (countNames chs) [] chs

/-- Whether a name ends in a parenthesized digit suffix `" (<digits>)"` —
the shape the disambiguator itself produces. -/
def endsParenNumSuffix (s : String) : Bool :=
  match s.data.reverse with
  | ')' :: rest =>
    (!(rest.takeWhile Char.isDigit).isEmpty) &&
      (match rest.dropWhile Char.isDigit with
       | '(' :: ' ' :: _ => true
       | _ => false)
  | _ => false

/-! ### Decimal representation lemmas -/

theorem charToNat_ofNat_lt {n : Nat} (h : n < 55296) : (Char.ofNat n).toNat = n := by
  unfold Char.ofNat
  rw [dif_pos (Or.inl h : Nat.isValidChar n)]
  rfl

theorem natDigitChar_isDigit (n : Nat) : (natDigitChar n).isDigit = true := by
  unfold natDigitChar
  have h10 : n % 10 < 10 := Nat.mod_lt _ (by omega)
  set m := n % 10 with hm
  interval_cases m <;> decide

theorem natDigitChar_toNat (n : Nat) : (natDigitChar n).toNat = 48 + n % 10 := by
  unfold natDigitChar
  exact charToNat_ofNat_lt (by omega)

theorem natToDigitsAux_digits :
    ∀ (fuel n : Nat) (acc : List Char), (∀ c ∈ acc, c.isDigit = true) →
      ∀ c ∈ natToDigitsAux fuel n acc, c.isDigit = true
  | 0, _, acc, h => h
  | fuel + 1, n, acc, h => by
    rw [natToDigitsAux]
    by_cases hn : n < 10
    · rw [if_pos hn]
      intro c hc
      rcases List.mem_cons.mp hc with rfl | hc
      · exact natDigitChar_isDigit n
      · exact h c hc
    · rw [if_neg hn]
      refine natToDigitsAux_digits fuel (n / 10) _ ?_
      intro c hc
      rcases List.mem_cons.mp hc with rfl | hc
      · exact natDigitChar_isDigit (n % 10)
      · exact h c hc

theorem natToDigitsAux_append :
    ∀ (fuel n : Nat) (acc : List Char),
      natToDigitsAux fuel n acc = natToDigitsAux fuel n [] ++ acc
  | 0, _, _ => rfl
  | fuel + 1, n, acc => by
    rw [natToDigitsAux, natToDigitsAux]
    by_cases hn : n < 10
    · rw [if_pos hn, if_pos hn]
      rfl
    · rw [if_neg hn, if_neg hn]
      rw [natToDigitsAux_append fuel (n / 10) (natDigitChar (n % 10) :: acc),
        natToDigitsAux_append fuel (n / 10) [natDigitChar (n % 10)]]
      simp

theorem natToDigitsAux_length_ge :
    ∀ (fuel n : Nat) (acc : List Char),
      acc.length ≤ (natToDigitsAux fuel n acc).length
  | 0, _, _ => le_refl _
  | fuel + 1, n, acc => by
    rw [natToDigitsAux]
    by_cases hn : n < 10
    · rw [if_pos hn]
      simp
    · rw [if_neg hn]
      have := natToDigitsAux_length_ge fuel (n / 10) (natDigitChar (n % 10) :: acc)
      simp only [List.length_cons] at this
      omega

/-- Value recovered from decimal digits. -/
def digitsVal (cs : List Char) : Nat :=
  cs.foldl (fun a c => a * 10 + (c.toNat - 48)) 0

theorem digitsVal_append_singleton (xs : List Char) (d : Char) :
    digitsVal (xs ++ [d]) = digitsVal xs * 10 + (d.toNat - 48) := by
  unfold digitsVal
  rw [List.foldl_append]
  rfl

theorem digitsVal_natToDigits :
    ∀ (fuel n : Nat), n < 10 ^ fuel → digitsVal (natToDigitsAux fuel n []) = n
  | 0, n, h => by
    simp only [pow_zero, Nat.lt_one_iff] at h
    subst h
    rfl
  | fuel + 1, n, h => by
    rw [natToDigitsAux]
    by_cases hn : n < 10
    · rw [if_pos hn]
      unfold digitsVal
      simp only [List.foldl_cons, List.foldl_nil]
      rw [natDigitChar_toNat]
      omega
    · rw [if_neg hn]
      rw [natToDigitsAux_append fuel (n / 10) [natDigitChar (n % 10)]]
      rw [digitsVal_append_singleton]
      have hdiv : n / 10 < 10 ^ fuel := by
        rw [Nat.div_lt_iff_lt_mul (by omega)]
        rw [pow_succ] at h
        omega
      rw [digitsVal_natToDigits fuel (n / 10) hdiv, natDigitChar_toNat]
      omega

theorem natRepr_inj {a b : Nat} (h : natRepr a = natRepr b) : a = b := by
  unfold natRepr at h
  have hdata : natToDigitsAux (a + 1) a [] = natToDigitsAux (b + 1) b [] :=
    congrArg String.data h
  have ha : a < 10 ^ (a + 1) :=
    lt_of_lt_of_le (Nat.lt_pow_self (by omega) a) (Nat.pow_le_pow_right (by omega) (by omega))
  have hb : b < 10 ^ (b + 1) :=
    lt_of_lt_of_le (Nat.lt_pow_self (by omega) b) (Nat.pow_le_pow_right (by omega) (by omega))
  have := digitsVal_natToDigits (a + 1) a ha
  rw [hdata, digitsVal_natToDigits (b + 1) b hb] at this
  omega

theorem natRepr_digits (n : Nat) : ∀ c ∈ (natRepr n).data, c.isDigit = true := by
  intro c hc
  exact natToDigitsAux_digits (n + 1) n [] (by simp) c hc

theorem natRepr_ne_nil (n : Nat) : (natRepr n).data ≠ [] := by
  unfold natRepr
  show natToDigitsAux (n + 1) n [] ≠ []
  rw [natToDigitsAux]
  by_cases hn : n < 10
  · rw [if_pos hn]
    simp
  · rw [if_neg hn]
    intro h0
    have := natToDigitsAux_length_ge n (n / 10) [natDigitChar (n % 10)]
    rw [h0] at this
    simp at this

/-! ### Uniqueness of disambiguated names -/

theorem string_ext {a b : String} (h : a.data = b.data) : a = b := by
  cases a
  cases b
  exact congrArg String.mk h

/-- The character suffix `" (" ++ ds ++ ")"` as data. -/
def parenSfx (ds : List Char) : List Char :=
  ' ' :: '(' :: ds ++ [')']

theorem name_sfx_data (nm : String) (idx : Nat) :
    (nm ++ " (" ++ natRepr idx ++ ")").data = nm.data ++ parenSfx (natRepr idx).data := by
  simp [String.data_append, parenSfx]

theorem digits_lparen_inj :
    ∀ (x1 x2 r1 r2 : List Char), (∀ c ∈ x1, c.isDigit = true) →
      (∀ c ∈ x2, c.isDigit = true) →
      x1 ++ '(' :: r1 = x2 ++ '(' :: r2 → x1 = x2 ∧ r1 = r2
  | [], [], r1, r2, _, _, h => by
    simp only [List.nil_append, List.cons.injEq] at h
    exact ⟨rfl, h.2⟩
  | [], c :: x2, r1, r2, _, h2, h => by
    simp only [List.nil_append, List.cons_append, List.cons.injEq] at h
    have := h2 c (by simp)
    rw [← h.1] at this
    exact absurd this (by decide)
  | c :: x1, [], r1, r2, h1, _, h => by
    simp only [List.cons_append, List.nil_append, List.cons.injEq] at h
    have := h1 c (by simp)
    rw [h.1] at this
    exact absurd this (by decide)
  | c :: x1, c2 :: x2, r1, r2, h1, h2, h => by
    simp only [List.cons_append, List.cons.injEq] at h
    obtain ⟨rfl, h⟩ := h
    obtain ⟨hx, hr⟩ := digits_lparen_inj x1 x2 r1 r2
      (fun d hd => h1 d (by simp [hd])) (fun d hd => h2 d (by simp [hd])) h
    exact ⟨by rw [hx], hr⟩

theorem reverse_append_sfx (b d : List Char) :
    (b ++ parenSfx d).reverse = ')' :: (d.reverse ++ '(' :: ' ' :: b.reverse) := by
  simp [parenSfx]

theorem sfx_inj {b1 d1 b2 d2 : List Char} (hd1 : ∀ c ∈ d1, c.isDigit = true)
    (hd2 : ∀ c ∈ d2, c.isDigit = true)
    (h : b1 ++ parenSfx d1 = b2 ++ parenSfx d2) : b1 = b2 ∧ d1 = d2 := by
  have hrev := congrArg List.reverse h
  rw [reverse_append_sfx, reverse_append_sfx] at hrev
  simp only [List.cons.injEq, true_and] at hrev
  obtain ⟨hx, hr⟩ := digits_lparen_inj d1.reverse d2.reverse _ _
    (fun c hc => hd1 c (List.mem_reverse.mp hc))
    (fun c hc => hd2 c (List.mem_reverse.mp hc)) hrev
  simp only [List.cons.injEq, true_and] at hr
  exact ⟨List.reverse_injective hr, List.reverse_injective hx⟩

theorem endsParenNumSuffix_of_sfx {s : String} {b d : List Char}
    (hdata : s.data = b ++ parenSfx d) (hne : d ≠ [])
    (hdig : ∀ c ∈ d, c.isDigit = true) : endsParenNumSuffix s = true := by
  unfold endsParenNumSuffix
  rw [show s.data.reverse = ')' :: (d.reverse ++ '(' :: ' ' :: b.reverse) from by
    rw [hdata, reverse_append_sfx]]
  have htake : List.takeWhile Char.isDigit (d.reverse ++ '(' :: ' ' :: b.reverse) =
      d.reverse := by
    rw [List.takeWhile_append,
      if_pos (by rw [List.takeWhile_eq_self_iff.mpr
        (fun c hc => hdig c (List.mem_reverse.mp hc))])]
    simp [List.takeWhile_cons]
  have hdrop : List.dropWhile Char.isDigit (d.reverse ++ '(' :: ' ' :: b.reverse) =
      '(' :: ' ' :: b.reverse := by
    rw [List.dropWhile_append,
      if_pos (by
        rw [List.dropWhile_eq_nil_iff.mpr
          (fun c hc => hdig c (List.mem_reverse.mp hc))]
        rfl)]
    simp [List.dropWhile_cons]
  show (!(List.takeWhile Char.isDigit (d.reverse ++ '(' :: ' ' :: b.reverse)).isEmpty &&
      match List.dropWhile Char.isDigit (d.reverse ++ '(' :: ' ' :: b.reverse) with
      | '(' :: ' ' :: _ => true
      | _ => false) = true
  rw [htake, hdrop]
  simp only [Bool.and_eq_true, Bool.not_eq_true]
  constructor
  · cases hd : d.reverse with
    | nil => exact absurd (List.reverse_eq_nil_iff.mp hd) hne
    | cons x xs => rfl
  · trivial

theorem alGetD_alSet_self : ∀ (l : List (String × Nat)) (k : String) (v : Nat),
    alGetD (alSet l k v) k 0 = v
  | [], k, v => by simp [alSet, alGetD, List.find?]
  | (k2, v2) :: rest, k, v => by
    rw [alSet]
    by_cases hk : k2 = k
    · rw [if_pos hk]
      simp [alGetD, List.find?]
    · rw [if_neg hk]
      have := alGetD_alSet_self rest k v
      simp only [alGetD, List.find?] at this ⊢
      rw [show (decide (k2 = k)) = false from by simp [hk]]
      exact this

theorem alGetD_alSet_ne : ∀ (l : List (String × Nat)) (k : String) (v : Nat) (x : String),
    x ≠ k → alGetD (alSet l k v) x 0 = alGetD l x 0
  | [], k, v, x, hx => by
    have hkx : (decide (k = x)) = false := by
      simp only [decide_eq_false_iff_not]
      exact fun h => hx h.symm
    simp only [alSet, alGetD, List.find?, hkx]
  | (k2, v2) :: rest, k, v, x, hx => by
    have hkx : (decide (k = x)) = false := by
      simp only [decide_eq_false_iff_not]
      exact fun h => hx h.symm
    rw [alSet]
    by_cases hk : k2 = k
    · rw [if_pos hk]
      have hk2x : (decide (k2 = x)) = false := by
        rw [hk]
        exact hkx
      simp only [alGetD, List.find?, hkx, hk2x]
    · rw [if_neg hk]
      have := alGetD_alSet_ne rest k v x hx
      simp only [alGetD, List.find?] at this ⊢
      cases hd : decide (k2 = x) with
      | true => rfl
      | false => exact this

theorem alGetD_alSet_ge (l : List (String × Nat)) (k : String) (v : Nat)
    (hv : alGetD l k 0 ≤ v) (x : String) :
    alGetD l x 0 ≤ alGetD (alSet l k v) x 0 := by
  by_cases hx : x = k
  · subst hx
    rw [alGetD_alSet_self]
    exact hv
  · rw [alGetD_alSet_ne l k v x hx]

/-- Number of channels carrying a given name. -/
def nameCount (l : List Channel) (nm : String) : Nat :=
  l.countP (fun ch => ch.name = nm)

theorem countNames_foldl_eq : ∀ (l : List Channel) (counts : List (String × Nat)) (nm : String),
    alGetD (l.foldl (fun cs ch => alSet cs ch.name (alGetD cs ch.name 0 + 1)) counts) nm 0 =
      alGetD counts nm 0 + nameCount l nm
  | [], counts, nm => by simp [nameCount]
  | ch :: rest, counts, nm => by
    rw [List.foldl_cons, countNames_foldl_eq rest _ nm]
    unfold nameCount
    rw [List.countP_cons]
    by_cases hnm : ch.name = nm
    · subst hnm
      rw [alGetD_alSet_self]
      rw [if_pos (show decide (ch.name = ch.name) = true from by simp)]
      omega
    · rw [alGetD_alSet_ne _ _ _ _ (fun h => hnm h.symm)]
      rw [show (decide (ch.name = nm)) = false from by simp [hnm]]
      simp only [Bool.false_eq_true, if_false]
      omega

theorem countNames_eq (chs : List Channel) (nm : String) :
    alGetD (countNames chs) nm 0 = nameCount chs nm := by
  unfold countNames
  rw [countNames_foldl_eq]
  simp [alGetD, List.find?]

/-- Every name in the output of the second loop is either an untouched
non-duplicated input name or an input name with a fresh `" (idx)"` suffix,
`idx` exceeding the occurrence index recorded in `seen`. -/
theorem enumApply_mem_names :
    ∀ (l : List Channel) (counts seen : List (String × Nat)) (nm : String),
      nm ∈ (enumApply counts seen l).map Channel.name →
      ∃ ch ∈ l,
        (alGetD counts ch.name 0 ≤ 1 ∧ nm = ch.name) ∨
        (alGetD counts ch.name 0 > 1 ∧ ∃ idx, alGetD seen ch.name 0 + 1 ≤ idx ∧
          nm = ch.name ++ " (" ++ natRepr idx ++ ")")
  | [], counts, seen, nm, h => by simp [enumApply] at h
  | ch :: rest, counts, seen, nm, h => by
    rw [enumApply] at h
    by_cases hdup : alGetD counts ch.name 0 > 1
    · rw [if_pos hdup] at h
      simp only [List.map_cons, List.mem_cons] at h
      rcases h with rfl | h
    
      · exact ⟨ch, by simp, Or.inr ⟨hdup, alGetD seen ch.name 0 + 1, le_refl _, rfl⟩⟩
      · obtain ⟨ch2, hch2, hcase⟩ := enumApply_mem_names rest counts
          (alSet seen ch.name (alGetD seen ch.name 0 + 1)) nm h
        refine ⟨ch2, by simp [hch2], ?_⟩
        rcases hcase with hplain | ⟨hd, idx, hidx, heq⟩
        · exact Or.inl hplain
        · refine Or.inr ⟨hd, idx, ?_, heq⟩
          have := alGetD_alSet_ge seen ch.name (alGetD seen ch.name 0 + 1)
            (by omega) ch2.name
          omega
    · rw [if_neg hdup] at h
      simp only [List.map_cons, List.mem_cons] at h
      rcases h with rfl | h
      · exact ⟨ch, by simp, Or.inl ⟨by omega, rfl⟩⟩
      · obtain ⟨ch2, hch2, hcase⟩ := enumApply_mem_names rest counts seen nm h
        exact ⟨ch2, by simp [hch2], hcase⟩

theorem nameCount_pos_of_mem {l : List Channel} {ch : Channel} (h : ch ∈ l) :
    1 ≤ nameCount l ch.name := by
  unfold nameCount
  have : 0 < l.countP (fun ch2 => ch2.name = ch.name) :=
    List.countP_pos_iff.mpr ⟨ch, h, by simp⟩
  omega

theorem nameCount_cons_le (ch : Channel) (l : List Channel) (nm : String) :
    nameCount l nm ≤ nameCount (ch :: l) nm := by
  unfold nameCount
  rw [List.countP_cons]
  omega

/-- Main inductive step for C9: with suffix-free input names and a count
table bounding the multiplicities, the produced names are pairwise
distinct. -/
theorem enumApply_names_pairwise :
    ∀ (l : List Channel) (counts seen : List (String × Nat)),
      (∀ ch ∈ l, endsParenNumSuffix ch.name = false) →
      (∀ nm, nameCount l nm ≤ alGetD counts nm 0) →
      ((enumApply counts seen l).map Channel.name).Pairwise (· ≠ ·)
  | [], _, _, _, _ => by simp [enumApply]
  | ch :: rest, counts, seen, hsfx, hcnt => by
    have hsfx2 : ∀ ch2 ∈ rest, endsParenNumSuffix ch2.name = false :=
      fun ch2 h2 => hsfx ch2 (by simp [h2])
    have hcnt2 : ∀ nm, nameCount rest nm ≤ alGetD counts nm 0 :=
      fun nm => le_trans (nameCount_cons_le ch rest nm) (hcnt nm)
    rw [enumApply]
    by_cases hdup : alGetD counts ch.name 0 > 1
    · rw [if_pos hdup]
      simp only [List.map_cons, List.pairwise_cons]
      constructor
      · intro nm hnm heq
        obtain ⟨ch2, hch2, hcase⟩ := enumApply_mem_names rest counts
          (alSet seen ch.name (alGetD seen ch.name 0 + 1)) nm hnm
        rcases hcase with ⟨hle, rfl⟩ | ⟨hgt, idx, hidx, rfl⟩
        · -- an untouched name equal to a suffixed one carries the suffix shape
          have hdata := congrArg String.data heq
          rw [name_sfx_data] at hdata
          have := endsParenNumSuffix_of_sfx hdata.symm
            (natRepr_ne_nil _) (natRepr_digits _)
          rw [hsfx ch2 (by simp [hch2])] at this
          cases this
        · have hdata := congrArg String.data heq
          rw [name_sfx_data, name_sfx_data] at hdata
          obtain ⟨hb, hd⟩ := sfx_inj (natRepr_digits _) (natRepr_digits _) hdata
          have hnames : ch.name = ch2.name := string_ext hb
          have hreprs : natRepr (alGetD seen ch.name 0 + 1) = natRepr idx :=
            string_ext hd
          have := natRepr_inj hreprs
          rw [← hnames, alGetD_alSet_self] at hidx
          omega
      · exact enumApply_names_pairwise rest counts _ hsfx2 hcnt2
    · rw [if_neg hdup]
      simp only [List.map_cons, List.pairwise_cons]
      constructor
      · intro nm hnm heq
        obtain ⟨ch2, hch2, hcase⟩ := enumApply_mem_names rest counts seen nm hnm
        rcases hcase with ⟨hle, rfl⟩ | ⟨hgt, idx, hidx, rfl⟩
        · -- two untouched equal names: the name then occurs twice
          have h2 : 2 ≤ nameCount (ch :: rest) ch.name := by
            unfold nameCount
            rw [List.countP_cons]
            rw [if_pos (by simp)]
            have hpos := nameCount_pos_of_mem hch2
            rw [← heq] at hpos
            unfold nameCount at hpos
            omega
          have h3 := hcnt ch.name
          omega
        · have hdata := congrArg String.data heq
          rw [name_sfx_data] at hdata
          have := endsParenNumSuffix_of_sfx hdata
            (natRepr_ne_nil _) (natRepr_digits _)
          rw [hsfx ch (by simp)] at this
          cases this
      · exact enumApply_names_pairwise rest counts seen hsfx2 hcnt2

/-- C9 (counterexample): name uniqueness fails when an input name already
carries a parenthesized numeric suffix.  For input names
`["X", "X", "X (1)"]` the disambiguator produces
`["X (1)", "X (2)", "X (1)"]`, in which `"X (1)"` occurs twice. -/
theorem claimC9_counterexample :
    (enumerateDuplicateNames
        [⟨"1", "X", [], ""⟩, ⟨"2", "X", [], ""⟩, ⟨"3", "X (1)", [], ""⟩]).map Channel.name =
      ["X (1)", "X (2)", "X (1)"] ∧
    ¬ ((enumerateDuplicateNames
        [⟨"1", "X", [], ""⟩, ⟨"2", "X", [], ""⟩, ⟨"3", "X (1)", [], ""⟩]).map
          Channel.name).Pairwise (· ≠ ·) :=
  ⟨rfl, by decide⟩

/-- C9 (amended): after name-collision disambiguation (which appends a
`" (n)"` suffix, `n` the 1-based occurrence index, to each channel whose
name is shared) the resulting names are pairwise distinct, provided no
input name itself ends in a parenthesized digit suffix `" (<digits>)"`
(the shape the disambiguator produces). -/
theorem claimC9_unique_names (chs : List Channel)
    (H : ∀ ch ∈ chs, endsParenNumSuffix ch.name = false) :
    ((enumerateDuplicateNames chs).map Channel.name).Pairwise (· ≠ ·) :=
  enumApply_names_pairwise chs (countNames chs) [] H
    (fun nm => le_of_eq (countNames_eq chs nm).symm)

/-- Witness for C9: the specification's own example `["X", "X", "Y", "X"]`
has no suffixed input name, so the output names — evaluating to
`["X (1)", "X (2)", "Y", "X (3)"]` — are pairwise distinct. -/
theorem claimC9_unique_names_witness :
    (enumerateDuplicateNames
        [⟨"1", "X", [], ""⟩, ⟨"2", "X", [], ""⟩, ⟨"3", "Y", [], ""⟩,
         ⟨"4", "X", [], ""⟩]).map Channel.name = ["X (1)", "X (2)", "Y", "X (3)"] ∧
    ((enumerateDuplicateNames
        [⟨"1", "X", [], ""⟩, ⟨"2", "X", [], ""⟩, ⟨"3", "Y", [], ""⟩,
         ⟨"4", "X", [], ""⟩]).map Channel.name).Pairwise (· ≠ ·) :=
  ⟨rfl, claimC9_unique_names _ (by decide)⟩

/-! ## Catalog building (`StepDaddy.load_channels`,
src/dlhd_proxy/step_daddy.py lines 76-132 and 180-190) -/

/-- Generic association-list write with Python-dict semantics: update in
place, append when new. -/
def assocSet {α : Type} : List (String × α) → String → α → List (String × α)
  | [], k, v => [(k, v)]
  | (k2, v2) :: rest, k, v =>
    if k2 = k then (k, v) :: rest else (k2, v2) :: assocSet rest k v

/-- Generic association-list lookup, Python `d.get(k)`. -/
def assocGet? {α : Type} (l : List (String × α)) (k : String) : Option α :=
  (l.find? (fun kv => kv.1 = k)).map (fun kv => kv.2)

/-- Python truthiness. -/
def pyTruthy : PyVal → Bool
  | .pynone => false
  | .pybool b => b
  | .pyint n => n ≠ 0
  | .pystr s => s ≠ ""
  | .pylist xs => !xs.isEmpty
  | .pydict kvs => !kvs.isEmpty

/-- Decimal representation of an integer. -/
def intRepr (n : Int) : String :=
  if n < 0 then "-" ++ natRepr n.natAbs else natRepr n.natAbs

/-- Python `str()` on the values that occur in schedule payloads.
(`repr` of containers is not modelled; the upstream feed never puts a
container in `channel_id`.) -/
def pyToStr : PyVal → String
  | .pystr s => s
  | .pyint n => intRepr n
  | .pybool b => if b then "True" else "False"
  | .pynone => "None"
  | .pylist _ => "<list>"
  | .pydict _ => "<dict>"

/-- `_iter_channels`: yield the dict items of a list, or the dict values
of a dict, and nothing otherwise. -/
def iterChannels : Option PyVal → List (List (String × PyVal))
  | some (.pylist xs) =>
    xs.filterMap (fun x => match x with | .pydict kvs => some kvs | _ => none)
  | some (.pydict kvs) =>
    kvs.filterMap (fun kv => match kv.2 with | .pydict k2 => some k2 | _ => none)
  | _ => []

/-- `re.sub(r"\s*\(.*?\)", "", s)`: remove every whitespace-prefixed
parenthesized group (lazily matched, so up to the first `)`; `.` does not
cross a newline). -/
def cleanNameAux : Nat → List Char → List Char
  | 0, l => l
  | _, [] => []
  | fuel + 1, c :: cs =>
    let rest1 := (c :: cs).dropWhile isPyWs
    match rest1 with
    | '(' :: body =>
      match body.dropWhile (fun d => d ≠ ')' ∧ d ≠ '\n') with
      | ')' :: after => cleanNameAux fuel after
      | _ => c :: cleanNameAux fuel cs
    | _ => c :: cleanNameAux fuel cs

/-- `re.sub(r"\s*\(.*?\)", "", s)` over a whole name. -/
def cleanChannelName (s : String) : String :=
  String.mk (cleanNameAux (s.data.length + 1) s.data)

/-- A `meta.json` entry: optional logo URL and tag list (absent keys
default to no logo and no tags, as with `meta.get(...)`). -/
structure MetaEntry where
  logo : Option String
  tags : List String
deriving DecidableEq, Repr

/-- `utils.urlsafe_base64`: padded URL-safe base64 of the UTF-8 bytes. -/
def urlsafeB64Str (s : String) : String :=
  String.mk (b64EncodePadded (utf8Encode (s.data.map Char.toNat)))

/-- `str(channel_name or channel_id)` for the schedule-reported name:
the id when the key was absent or its value falsy. -/
def scheduleName (nameVal : Option PyVal) (cid : String) : String :=
  match nameVal with
  | none => cid
  | some v => if pyTruthy v then pyToStr v else cid

/-- Embedding of `StepDaddy._channel_from_schedule`. -/
def channelFromSchedule (apiUrl : String) (meta : List (String × MetaEntry))
    (cid : String) (nameVal : Option PyVal) : Channel :=
  let cid2 := pyStrip cid
  let name := scheduleName nameVal cid
  let clean := cleanChannelName name
  let m := (assocGet? meta clean).getD ⟨none, []⟩
  let logoRaw := m.logo.getD "/missing.png"
  let logo :=
    if logoRaw.startsWith "http" then apiUrl ++ "/logo/" ++ urlsafeB64Str logoRaw
    else logoRaw
  ⟨cid2, name, m.tags, logo⟩

/-- The trimmed `channel_id` string of a schedule channel-info dict:
`str(info.get("channel_id", "")).strip()`. -/
def infoCid (info : List (String × PyVal)) : String :=
  pyStrip (pyToStr ((assocGet? info "channel_id").getD (.pystr "")))

/-- The flattened schedule traversal of `load_channels`: for every dict
day, for every list of events, for every dict event, the channel infos of
`channels` then `channels2`. -/
def flattenScheduleInfos (schedule : PyVal) : List (List (String × PyVal)) :=
  match schedule with
  | .pydict days =>
    days.flatMap (fun day =>
      match day.2 with
      | .pydict cats =>
        cats.flatMap (fun cat =>
          match cat.2 with
          | .pylist events =>
            events.flatMap (fun ev =>
              match ev with
              | .pydict evkvs =>
                iterChannels (assocGet? evkvs "channels") ++
                  iterChannels (assocGet? evkvs "channels2")
              | _ => [])
          | _ => [])
      | _ => [])
  | _ => []

/-- One step of the schedule merge: skip empty ids and ids already in the
dict, otherwise add the schedule-derived channel. -/
def mergeStep (apiUrl : String) (meta : List (String × MetaEntry))
    (chans : List (String × Channel)) (info : List (String × PyVal)) :
    List (String × Channel) :=
  let cid := infoCid info
  if cid = "" then chans
  else if (assocGet? chans cid).isSome then chans
  else assocSet chans cid (channelFromSchedule apiUrl meta cid (assocGet? info "channel_name"))

/-- The schedule-merge loop of `load_channels` (lines 103-126). -/
def mergeScheduleChannels (apiUrl : String) (meta : List (String × MetaEntry))
    (channels : List (String × Channel)) (schedule : PyVal) : List (String × Channel) :=
  (flattenScheduleInfos schedule).foldl (mergeStep apiUrl meta) channels

/-- Stable insertion sort, modelling Python's stable `sorted`: an element
is placed before the first element it compares `le` to, so original order
is kept among key-equal elements. -/
def insertSorted {α : Type} (le : α → α → Bool) (x : α) : List α → List α
  | [] => [x]
  | y :: ys => if le x y then x :: y :: ys else y :: insertSorted le x ys

/-- Stable sort by repeated insertion. -/
def insertionSort {α : Type} (le : α → α → Bool) : List α → List α
  | [] => []
  | x :: xs => insertSorted le x (insertionSort le xs)

/-- The sort key comparison of `load_channels`:
`(name.startswith("18"), name, id)` ascending, `False < True`. -/
def chanLE (a b : Channel) : Bool :=
  let k1a := a.name.startsWith "18"
  let k1b := b.name.startsWith "18"
  (!k1a && k1b) ||
    (k1a == k1b &&
      (decide (a.name < b.name) || (a.name == b.name && decide (a.id ≤ b.id))))

/-- Embedding of `StepDaddy.load_channels`.  The HTTP fetch and regex
parse of the listing page are abstracted as the `listing` input: `none`
models the except-branch (the fetch failed, the dict stays empty), `some
l` the parsed channels inserted in order; `sched` is `none` when
`self.schedule()` raised (that failure is logged and the merge skipped).
`prev` is the prior `self.channels` snapshot, which the source never
reads: the attribute is overwritten unconditionally at the end. -/
def loadChannels (apiUrl : String) (meta : List (String × MetaEntry))
    (prev : List Channel) (listing : Option (List Channel)) (sched : Option PyVal) :
    List Channel :=
  let channels0 : List (String × Channel) :=
    match listing with
    | none => []
    | some l => l.foldl (fun d ch => assocSet d ch.id ch) []
  let channels1 :=
    match sched with
    | none => channels0
    | some s => mergeScheduleChannels apiUrl meta channels0 s
  enumerateDuplicateNames (insertionSort chanLE (channels1.map (fun kv => kv.2)))

/-- C2 (counterexample): a refresh in which channel-list scraping fails
(and the schedule fetch fails too) does not preserve the previous
snapshot — `load_channels` unconditionally assigns the freshly built
list, so the caller observes an empty catalog. -/
theorem claimC2_counterexample :
    loadChannels "api" [] [⟨"1", "Old", [], "logo"⟩] none none = [] ∧
    ([⟨"1", "Old", [], "logo"⟩] : List Channel) ≠ [] :=
  ⟨rfl, by decide⟩

/-- C2 (amended): `load_channels` never preserves the previous snapshot:
the new snapshot is computed without reading the old one (so the result
is the same whatever the previous value was), and when both the
channel-list scrape and the schedule fetch fail the snapshot is replaced
by the empty list. -/
theorem claimC2_replace (apiUrl : String) (meta : List (String × MetaEntry))
    (prev prev2 : List Channel) (listing : Option (List Channel))
    (sched : Option PyVal) :
    loadChannels apiUrl meta prev listing sched =
      loadChannels apiUrl meta prev2 listing sched ∧
    loadChannels apiUrl meta prev none none = [] :=
  ⟨rfl, rfl⟩

theorem assocGet?_set_self {α : Type} :
    ∀ (l : List (String × α)) (k : String) (v : α),
      assocGet? (assocSet l k v) k = some v
  | [], k, v => by simp [assocSet, assocGet?, List.find?]
  | (k2, v2) :: rest, k, v => by
    rw [assocSet]
    by_cases hk : k2 = k
    · rw [if_pos hk]
      simp [assocGet?, List.find?]
    · rw [if_neg hk]
      have := assocGet?_set_self rest k v
      simp only [assocGet?, List.find?] at this ⊢
      rw [show (decide (k2 = k)) = false from by simp [hk]]
      exact this

theorem assocGet?_set_ne {α : Type} :
    ∀ (l : List (String × α)) (k : String) (v : α) (x : String), x ≠ k →
      assocGet? (assocSet l k v) x = assocGet? l x
  | [], k, v, x, hx => by
    have hkx : (decide (k = x)) = false := by
      simp only [decide_eq_false_iff_not]
      exact fun h => hx h.symm
    simp [assocSet, assocGet?, List.find?, hkx]
  | (k2, v2) :: rest, k, v, x, hx => by
    have hkx : (decide (k = x)) = false := by
      simp only [decide_eq_false_iff_not]
      exact fun h => hx h.symm
    rw [assocSet]
    by_cases hk : k2 = k
    · rw [if_pos hk]
      have hk2x : (decide (k2 = x)) = false := by
        rw [hk]
        exact hkx
      simp only [assocGet?, List.find?, hkx, hk2x]
    · rw [if_neg hk]
      have := assocGet?_set_ne rest k v x hx
      simp only [assocGet?, List.find?] at this ⊢
      cases hd : decide (k2 = x) with
      | true => rfl
      | false => exact this

/-- The trimmed non-empty channel ids referenced anywhere in a schedule's
`channels`/`channels2` lists. -/
def scheduleIds (schedule : PyVal) : List String :=
  (flattenScheduleInfos schedule).filterMap (fun info =>
    if infoCid info = "" then none else some (infoCid info))

/-- The first schedule channel info carrying a given id. -/
def firstScheduleInfo (schedule : PyVal) (cid : String) :
    Option (List (String × PyVal)) :=
  (flattenScheduleInfos schedule).find? (fun info => infoCid info = cid)

theorem mergeFold_preserves (apiUrl : String) (meta : List (String × MetaEntry)) :
    ∀ (infos : List (List (String × PyVal))) (init : List (String × Channel))
      (cid : String) (v : Channel), assocGet? init cid = some v →
      assocGet? (infos.foldl (mergeStep apiUrl meta) init) cid = some v
  | [], _, _, _, h => h
  | info :: infos, init, cid, v, h => by
    rw [List.foldl_cons]
    refine mergeFold_preserves apiUrl meta infos _ cid v ?_
    unfold mergeStep
    by_cases h0 : infoCid info = ""
    · rw [if_pos h0]
      exact h
    · rw [if_neg h0]
      by_cases h1 : (assocGet? init (infoCid info)).isSome
      · rw [if_pos h1]
        exact h
      · rw [if_neg h1]
        by_cases h2 : cid = infoCid info
        · subst h2
          rw [h] at h1
          simp at h1
        · rw [assocGet?_set_ne init (infoCid info) _ cid h2]
          exact h

theorem mergeFold_adds (apiUrl : String) (meta : List (String × MetaEntry)) :
    ∀ (infos : List (List (String × PyVal))) (init : List (String × Channel))
      (cid : String), assocGet? init cid = none →
      (∃ info ∈ infos, infoCid info = cid) → cid ≠ "" →
      ∃ info, infos.find? (fun i => infoCid i = cid) = some info ∧
        assocGet? (infos.foldl (mergeStep apiUrl meta) init) cid =
          some (channelFromSchedule apiUrl meta cid (assocGet? info "channel_name"))
  | [], _, _, _, hmem, _ => by simp at hmem
  | info :: infos, init, cid, hnone, hmem, hne => by
    rw [List.foldl_cons]
    by_cases hc : infoCid info = cid
    · refine ⟨info, by rw [List.find?_cons_of_pos _ (by simp [hc])], ?_⟩
      have hstep : mergeStep apiUrl meta init info =
          assocSet init cid (channelFromSchedule apiUrl meta cid
            (assocGet? info "channel_name")) := by
        unfold mergeStep
        rw [hc]
        rw [if_neg hne, hnone]
        rfl
      rw [hstep]
      exact mergeFold_preserves apiUrl meta infos _ cid _ (assocGet?_set_self init cid _)
    · have hmem2 : ∃ i ∈ infos, infoCid i = cid := by
        rcases hmem with ⟨i, hi, hic⟩
        rcases List.mem_cons.mp hi with rfl | hi2
        · exact absurd hic hc
        · exact ⟨i, hi2, hic⟩
      have hnone2 : assocGet? (mergeStep apiUrl meta init info) cid = none := by
        unfold mergeStep
        by_cases h0 : infoCid info = ""
        · rw [if_pos h0]
          exact hnone
        · rw [if_neg h0]
          by_cases h1 : (assocGet? init (infoCid info)).isSome
          · rw [if_pos h1]
            exact hnone
          · rw [if_neg h1]
            rw [assocGet?_set_ne init (infoCid info) _ cid (fun h => hc h.symm)]
            exact hnone
      obtain ⟨i, hfind, hget⟩ := mergeFold_adds apiUrl meta infos _ cid hnone2 hmem2 hne
      exact ⟨i, by rw [List.find?_cons_of_neg _ (by simp [hc]), hfind], hget⟩

theorem mergeFold_no_extras (apiUrl : String) (meta : List (String × MetaEntry)) :
    ∀ (infos : List (List (String × PyVal))) (init : List (String × Channel))
      (cid : String),
      (assocGet? (infos.foldl (mergeStep apiUrl meta) init) cid).isSome →
      (assocGet? init cid).isSome ∨ (cid ≠ "" ∧ ∃ info ∈ infos, infoCid info = cid)
  | [], init, cid, h => Or.inl h
  | info :: infos, init, cid, h => by
    rw [List.foldl_cons] at h
    rcases mergeFold_no_extras apiUrl meta infos _ cid h with h2 | ⟨hne, i, hi, hic⟩
    · unfold mergeStep at h2
      by_cases h0 : infoCid info = ""
      · rw [if_pos h0] at h2
        exact Or.inl h2
      · rw [if_neg h0] at h2
        by_cases h1 : (assocGet? init (infoCid info)).isSome
        · rw [if_pos h1] at h2
          exact Or.inl h2
        · rw [if_neg h1] at h2
          by_cases hc : cid = infoCid info
          · exact Or.inr ⟨hc ▸ h0, info, by simp, hc.symm⟩
          · rw [assocGet?_set_ne init (infoCid info) _ cid hc] at h2
            exact Or.inl h2
    · exact Or.inr ⟨hne, i, by simp [hi], hic⟩

/-- C10: schedule-derived channels are merged into the catalog dict:
listing entries take precedence (they are never overwritten), every
trimmed non-empty schedule channel id ends up in the dict, nothing else
is added, and an id absent from the listing is added as the
schedule-derived channel built from its first occurrence (name defaulting
to the id). -/
theorem claimC10_merge (apiUrl : String) (meta : List (String × MetaEntry))
    (init : List (String × Channel)) (sched : PyVal) :
    (∀ cid v, assocGet? init cid = some v →
      assocGet? (mergeScheduleChannels apiUrl meta init sched) cid = some v) ∧
    (∀ cid, cid ∈ scheduleIds sched →
      (assocGet? (mergeScheduleChannels apiUrl meta init sched) cid).isSome) ∧
    (∀ cid, (assocGet? (mergeScheduleChannels apiUrl meta init sched) cid).isSome →
      (assocGet? init cid).isSome ∨ cid ∈ scheduleIds sched) ∧
    (∀ cid info, assocGet? init cid = none →
      firstScheduleInfo sched cid = some info → cid ≠ "" →
      assocGet? (mergeScheduleChannels apiUrl meta init sched) cid =
        some (channelFromSchedule apiUrl meta cid (assocGet? info "channel_name"))) := by
  have hids : ∀ cid, cid ∈ scheduleIds sched ↔
      (cid ≠ "" ∧ ∃ info ∈ flattenScheduleInfos sched, infoCid info = cid) := by
    intro cid
    unfold scheduleIds
    rw [List.mem_filterMap]
    constructor
    · rintro ⟨info, hinfo, hsome⟩
      by_cases h0 : infoCid info = ""
      · rw [if_pos h0] at hsome
        cases hsome
      · rw [if_neg h0] at hsome
        cases hsome
        exact ⟨h0, info, hinfo, rfl⟩
    · rintro ⟨hne, info, hinfo, rfl⟩
      exact ⟨info, hinfo, by rw [if_neg hne]⟩
  refine ⟨?_, ?_, ?_, ?_⟩
  · intro cid v h
    exact mergeFold_preserves apiUrl meta _ init cid v h
  · intro cid hmem
    unfold mergeScheduleChannels
    obtain ⟨hne, hex⟩ := (hids cid).mp hmem
    cases hinit : assocGet? init cid with
    | some v =>
      rw [mergeFold_preserves apiUrl meta _ init cid v hinit]
      rfl
    | none =>
      obtain ⟨info, -, hget⟩ := mergeFold_adds apiUrl meta _ init cid hinit hex hne
      rw [hget]
      rfl
  · intro cid h
    rcases mergeFold_no_extras apiUrl meta _ init cid h with h2 | ⟨hne, hex⟩
    · exact Or.inl h2
    · exact Or.inr ((hids cid).mpr ⟨hne, hex⟩)
  · intro cid info hnone hfirst hne
    unfold mergeScheduleChannels
    obtain ⟨info2, hfind, hget⟩ := mergeFold_adds apiUrl meta _ init cid hnone
      ⟨info, List.mem_of_find?_eq_some hfirst, by
        have := List.find?_some hfirst
        simpa using this⟩ hne
    rw [show info2 = info from by
      unfold firstScheduleInfo at hfirst
      rw [hfirst] at hfind
      cases hfind
      rfl]
      at hget
    exact hget

/-- Witness for C10: with a listing channel `1` and a schedule referencing
ids ` 1 ` (trimmed, already listed — the listing entry wins) and `42`
(new, added with the schedule-reported name), the merge keeps `1` and
adds `42`. -/
theorem claimC10_merge_witness :
    assocGet? (mergeScheduleChannels "api" []
      [("1", ⟨"1", "Alpha", [], "y"⟩)]
      (.pydict [("Day1", .pydict [("Sports", .pylist [.pydict [("channels", .pylist
        [.pydict [("channel_id", .pystr " 1 "), ("channel_name", .pystr "AlphaSched")],
         .pydict [("channel_id", .pyint 42), ("channel_name", .pystr "FortyTwo")]])]])])]))
      "1" = some ⟨"1", "Alpha", [], "y"⟩ ∧
    assocGet? (mergeScheduleChannels "api" []
      [("1", ⟨"1", "Alpha", [], "y"⟩)]
      (.pydict [("Day1", .pydict [("Sports", .pylist [.pydict [("channels", .pylist
        [.pydict [("channel_id", .pystr " 1 "), ("channel_name", .pystr "AlphaSched")],
         .pydict [("channel_id", .pyint 42), ("channel_name", .pystr "FortyTwo")]])]])])]))
      "42" = some (channelFromSchedule "api" [] "42" (some (.pystr "FortyTwo"))) := by
  have h := claimC10_merge "api" []
    [("1", ⟨"1", "Alpha", [], "y"⟩)]
    (.pydict [("Day1", .pydict [("Sports", .pylist [.pydict [("channels", .pylist
      [.pydict [("channel_id", .pystr " 1 "), ("channel_name", .pystr "AlphaSched")],
       .pydict [("channel_id", .pyint 42), ("channel_name", .pystr "FortyTwo")]])]])])])
  refine ⟨h.1 "1" ⟨"1", "Alpha", [], "y"⟩ rfl, ?_⟩
  exact h.2.2.2 "42"
    [("channel_id", .pyint 42), ("channel_name", .pystr "FortyTwo")] rfl rfl (by decide)

/-! ## Schedule reconciler (`backend.get_schedule`,
src/dlhd_proxy/backend.py lines 258-333) -/

/-- `\w` of Python `re` restricted to ASCII (upstream names are ASCII):
letters, digits and underscore. -/
def isWordChar (c : Char) : Bool :=
  c.isAlphanum ∨ c = '_'

/-- `norm`: `re.sub(r"\W+", "", name).lower()`. -/
def normName (s : String) : String :=
  String.mk ((s.data.filter isWordChar).map Char.toLower)

/-- `suffix_re.sub("", name)` for `suffix_re = re.compile(r"\s*\(\d+\)$")`:
strip one trailing parenthesized digit group and the whitespace before
it. -/
def stripTrailingParenNum (s : String) : String :=
  match s.data.reverse with
  | ')' :: rest =>
    if (rest.takeWhile Char.isDigit).isEmpty then s
    else
      match rest.dropWhile Char.isDigit with
      | '(' :: rest2 => String.mk (rest2.dropWhile isPyWs).reverse
      | _ => s
  | _ => s

/-- `id_to_name = {ch.id: ch.name for ch in channels}`. -/
def idToName (channels : List Channel) : List (String × String) :=
  channels.foldl (fun m ch => assocSet m ch.id ch.name) []

/-- One `name_to_id[key] = ch.id` insertion: only when the key is new, or
the channel is selected and the currently mapped one is not. -/
def insertVariant (selected : List String) (ch : Channel)
    (m : List (String × String)) (variant : String) : List (String × String) :=
  let key := normName variant
  if key = "" then m
  else
    match assocGet? m key with
    | none => assocSet m key ch.id
    | some old =>
      if ch.id ∈ selected ∧ old ∉ selected then assocSet m key ch.id else m

/-- The name variants of a channel: its full name, and the name with any
trailing parenthesized numeric suffix stripped (a two-element Python set;
when the two variants coincide or the stripped form is empty there is
only one).  Iteration order of the set only matters when both variants
normalize to the same key, in which case both writes are identical. -/
def nameVariants (ch : Channel) : List String :=
  let stripped := stripTrailingParenNum ch.name
  if stripped ≠ "" ∧ stripped ≠ ch.name then [ch.name, stripped] else [ch.name]

/-- The `name_to_id` construction loop. -/
def nameToId (channels : List Channel) (selected : List String) :
    List (String × String) :=
  channels.foldl (fun m ch => (nameVariants ch).foldl (insertVariant selected ch) m) []

/-- The trimmed-to-string `channel_id` of a schedule channel dict:
`str(chan.get("channel_id", ""))`. -/
def chanCid (chan : List (String × PyVal)) : String :=
  pyToStr ((assocGet? chan "channel_id").getD (.pystr ""))

/-- The `channel_name` of a schedule channel dict,
`chan.get("channel_name", "")` (assumed to be a string when present, as
the upstream schema guarantees — `norm` would fail on anything else). -/
def chanName (chan : List (String × PyVal)) : String :=
  match assocGet? chan "channel_name" with
  | some (.pystr s) => s
  | _ => ""

/-- `resolve`: keep the raw id on an exact id-to-name match, otherwise
remap through the normalized-name map or drop; then keep the reference
only if the resolved id is selected, updating its `channel_id`. -/
def resolveChan (idM : List (String × String)) (nameM : List (String × String))
    (selected : List String) (chan : List (String × PyVal)) :
    Option (List (String × PyVal)) :=
  let cid := chanCid chan
  let name := chanName chan
  let mapped := assocGet? nameM (normName name)
  let cid2 : Option String :=
    if assocGet? idM cid ≠ some name then mapped else some cid
  match cid2 with
  | none => none
  | some c =>
    if c ∈ selected then some (assocSet chan "channel_id" (.pystr c)) else none

/-- `filter_channels` on a `channels`/`channels2` payload: resolve each
reference of a list (or each dict value), dropping the unresolved; any
other payload shape becomes the empty list.  (List elements are dicts in
the upstream schema; the model drops non-dict elements.) -/
def filterChannels (idM nameM : List (String × String)) (selected : List String) :
    Option PyVal → PyVal
  | some (.pylist xs) =>
    .pylist (xs.filterMap (fun x =>
      match x with
      | .pydict kvs => (resolveChan idM nameM selected kvs).map .pydict
      | _ => none))
  | some (.pydict kvs) =>
    .pydict (kvs.filterMap (fun kv =>
      match kv.2 with
      | .pydict chan => (resolveChan idM nameM selected chan).map (fun c => (kv.1, .pydict c))
      | _ => none))
  | _ => .pylist []

/-- Truthiness of a `filter_channels` result (a list or dict). -/
def collTruthy : PyVal → Bool
  | .pylist xs => !xs.isEmpty
  | .pydict kvs => !kvs.isEmpty
  | _ => false

/-- Remove a key (`event.pop(k, None)`). -/
def assocRemove (kvs : List (String × PyVal)) (k : String) : List (String × PyVal) :=
  kvs.filter (fun kv => kv.1 ≠ k)

/-- The per-event body of the reconciliation loop: filter both reference
lists, drop the event when both are empty, otherwise store the filtered
lists (removing a key whose filtered list is empty). -/
def filterEvent (idM nameM : List (String × String)) (selected : List String)
    (event : List (String × PyVal)) : Option (List (String × PyVal)) :=
  let ch1 := filterChannels idM nameM selected (assocGet? event "channels")
  let ch2 := filterChannels idM nameM selected (assocGet? event "channels2")
  if ¬collTruthy ch1 ∧ ¬collTruthy ch2 then none
  else
    let e1 := if collTruthy ch1 then assocSet event "channels" ch1
      else assocRemove event "channels"
    let e2 := if collTruthy ch2 then assocSet e1 "channels2" ch2
      else assocRemove e1 "channels2"
    some e2

/-- Embedding of the filtering part of `backend.get_schedule`: the
schedule (a dict of dicts of event lists, as produced by
`StepDaddy.schedule`) is reduced to the events with at least one
resolved reference; empty categories and days are pruned. -/
def getScheduleFiltered (channels : List Channel) (selected : List String)
    (schedule : List (String × List (String × List (List (String × PyVal))))) :
    List (String × List (String × List (List (String × PyVal)))) :=
  let idM := idToName channels
  let nameM := nameToId channels selected
  schedule.filterMap (fun day =>
    let newCats := day.2.filterMap (fun cat =>
      let newEvents := cat.2.filterMap (filterEvent idM nameM selected)
      if newEvents.isEmpty then none else some (cat.1, newEvents))
    if newCats.isEmpty then none else some (day.1, newCats))

theorem insertVariant_sound (selected : List String) (ch : Channel)
    (m : List (String × String)) (v : String) (key id : String)
    (h : assocGet? (insertVariant selected ch m v) key = some id) :
    assocGet? m key = some id ∨ (key = normName v ∧ id = ch.id) := by
  unfold insertVariant at h
  by_cases h0 : normName v = ""
  · rw [if_pos h0] at h
    exact Or.inl h
  · rw [if_neg h0] at h
    revert h
    cases hg : assocGet? m (normName v) with
    | none =>
      intro h
      by_cases hk : key = normName v
      · subst hk
        rw [assocGet?_set_self] at h
        cases h
        exact Or.inr ⟨rfl, rfl⟩
      · rw [assocGet?_set_ne m (normName v) _ key hk] at h
        exact Or.inl h
    | some old =>
      dsimp only
      by_cases hc : ch.id ∈ selected ∧ old ∉ selected
      · rw [if_pos hc]
        intro h
        by_cases hk : key = normName v
        · subst hk
          rw [assocGet?_set_self] at h
          cases h
          exact Or.inr ⟨rfl, rfl⟩
        · rw [assocGet?_set_ne m (normName v) _ key hk] at h
          exact Or.inl h
      · rw [if_neg hc]
        exact Or.inl

theorem variantsFold_sound (selected : List String) (ch : Channel) :
    ∀ (vs : List String) (m : List (String × String)) (key id : String),
      assocGet? (vs.foldl (insertVariant selected ch) m) key = some id →
      assocGet? m key = some id ∨ (id = ch.id ∧ ∃ v ∈ vs, key = normName v)
  | [], m, key, id, h => Or.inl h
  | v :: vs, m, key, id, h => by
    rw [List.foldl_cons] at h
    rcases variantsFold_sound selected ch vs _ key id h with h2 | ⟨hid, v2, hv2, hkey⟩
    · rcases insertVariant_sound selected ch m v key id h2 with h3 | ⟨hkey, hid⟩
      · exact Or.inl h3
      · exact Or.inr ⟨hid, v, by simp, hkey⟩
    · exact Or.inr ⟨hid, v2, by simp [hv2], hkey⟩

theorem nameToId_sound (channels : List Channel) (selected : List String) :
    ∀ (chs : List Channel) (m : List (String × String)) (key id : String),
      assocGet? (chs.foldl
        (fun m ch => (nameVariants ch).foldl (insertVariant selected ch) m) m) key =
          some id →
      assocGet? m key = some id ∨
        ∃ ch ∈ chs, id = ch.id ∧
          (key = normName ch.name ∨ key = normName (stripTrailingParenNum ch.name))
  | [], m, key, id, h => Or.inl h
  | ch :: chs, m, key, id, h => by
    rw [List.foldl_cons] at h
    rcases nameToId_sound channels selected chs _ key id h with h2 | ⟨ch2, hch2, hid, hkey⟩
    · rcases variantsFold_sound selected ch _ m key id h2 with h3 | ⟨hid, v, hv, hkey⟩
      · exact Or.inl h3
      · refine Or.inr ⟨ch, by simp, hid, ?_⟩
        unfold nameVariants at hv
        by_cases hs : stripTrailingParenNum ch.name ≠ "" ∧
            stripTrailingParenNum ch.name ≠ ch.name
        · rw [if_pos hs] at hv
          simp only [List.mem_cons, List.not_mem_nil, or_false] at hv
          rcases hv with rfl | rfl
          · exact Or.inl hkey
          · exact Or.inr hkey
        · rw [if_neg hs] at hv
          simp only [List.mem_singleton] at hv
          subst hv
          exact Or.inl hkey
    · exact Or.inr ⟨ch2, by simp [hch2], hid, hkey⟩

theorem insertVariant_preserves (selected : List String) (ch : Channel)
    (m : List (String × String)) (v : String) (key : String)
    (h : (assocGet? m key).isSome) :
    (assocGet? (insertVariant selected ch m v) key).isSome := by
  unfold insertVariant
  by_cases h0 : normName v = ""
  · rw [if_pos h0]
    exact h
  · rw [if_neg h0]
    cases hg : assocGet? m (normName v) with
    | none =>
      by_cases hk : key = normName v
      · subst hk
        rw [assocGet?_set_self]
        rfl
      · rw [assocGet?_set_ne m (normName v) _ key hk]
        exact h
    | some old =>
      dsimp only
      by_cases hc : ch.id ∈ selected ∧ old ∉ selected
      · rw [if_pos hc]
        by_cases hk : key = normName v
        · subst hk
          rw [assocGet?_set_self]
          rfl
        · rw [assocGet?_set_ne m (normName v) _ key hk]
          exact h
      · rw [if_neg hc]
        exact h

theorem insertVariant_adds (selected : List String) (ch : Channel)
    (m : List (String × String)) (v : String) (hne : normName v ≠ "") :
    (assocGet? (insertVariant selected ch m v) (normName v)).isSome := by
  unfold insertVariant
  rw [if_neg hne]
  cases hg : assocGet? m (normName v) with
  | none =>
    rw [assocGet?_set_self]
    rfl
  | some old =>
    dsimp only
    by_cases hc : ch.id ∈ selected ∧ old ∉ selected
    · rw [if_pos hc]
      rw [assocGet?_set_self]
      rfl
    · rw [if_neg hc]
      rw [hg]
      rfl

theorem variantsFold_preserves (selected : List String) (ch : Channel) :
    ∀ (vs : List String) (m : List (String × String)) (key : String),
      (assocGet? m key).isSome →
      (assocGet? (vs.foldl (insertVariant selected ch) m) key).isSome
  | [], _, _, h => h
  | v :: vs, m, key, h => by
    rw [List.foldl_cons]
    exact variantsFold_preserves selected ch vs _ key
      (insertVariant_preserves selected ch m v key h)

theorem variantsFold_adds (selected : List String) (ch : Channel) :
    ∀ (vs : List String) (m : List (String × String)) (v : String),
      v ∈ vs → normName v ≠ "" →
      (assocGet? (vs.foldl (insertVariant selected ch) m) (normName v)).isSome
  | [], _, _, hv, _ => by simp at hv
  | v2 :: vs, m, v, hv, hne => by
    rw [List.foldl_cons]
    rcases List.mem_cons.mp hv with rfl | hv2
    · exact variantsFold_preserves selected ch vs _ _
        (insertVariant_adds selected ch m v hne)
    · exact variantsFold_adds selected ch vs _ v hv2 hne

theorem channelsFold_preserves (selected : List String) :
    ∀ (chs : List Channel) (m : List (String × String)) (key : String),
      (assocGet? m key).isSome →
      (assocGet? (chs.foldl
        (fun m ch => (nameVariants ch).foldl (insertVariant selected ch) m) m)
        key).isSome
  | [], _, _, h => h
  | ch :: chs, m, key, h => by
    rw [List.foldl_cons]
    exact channelsFold_preserves selected chs _ key
      (variantsFold_preserves selected ch _ m key h)

theorem nameToId_complete (selected : List String) :
    ∀ (chs : List Channel) (m : List (String × String)) (ch : Channel),
      ch ∈ chs → ∀ key,
      (key = normName ch.name ∨ key = normName (stripTrailingParenNum ch.name)) →
      key ≠ "" →
      (assocGet? (chs.foldl
        (fun m ch => (nameVariants ch).foldl (insertVariant selected ch) m) m)
        key).isSome
  | [], _, _, hch, _, _, _ => by simp at hch
  | ch2 :: chs, m, ch, hch, key, hkey, hne => by
    rw [List.foldl_cons]
    rcases List.mem_cons.mp hch with rfl | hch2
    · have hvar : ∃ v ∈ nameVariants ch, key = normName v := by
        unfold nameVariants
        by_cases hs : stripTrailingParenNum ch.name ≠ "" ∧
            stripTrailingParenNum ch.name ≠ ch.name
        · rw [if_pos hs]
          rcases hkey with rfl | rfl
          · exact ⟨ch.name, by simp, rfl⟩
          · exact ⟨stripTrailingParenNum ch.name, by simp, rfl⟩
        · rw [if_neg hs]
          push_neg at hs
          rcases hkey with rfl | rfl
          · exact ⟨ch.name, by simp, rfl⟩
          · by_cases h0 : stripTrailingParenNum ch.name = ""
            · rw [h0] at hne ⊢
              exact absurd (show normName "" = "" from rfl) hne
            · rw [hs h0]
              exact ⟨ch.name, by simp, rfl⟩
      obtain ⟨v, hv, rfl⟩ := hvar
      exact channelsFold_preserves selected chs _ _
        (variantsFold_adds selected ch _ m v hv hne)
    · exact nameToId_complete selected chs _ ch hch2 key hkey hne

/-- C7: the reconciler's reference handling.  With the lookup maps built
from the catalog and selection: (1) every normalized-name remap target is
a catalog channel whose (possibly suffix-stripped) normalized name is the
key; (2) a non-empty normalized name of any catalog channel is present in
the map; and for a reference whose raw id the catalog maps to a different
name (or no name): (3) it is dropped when no remap exists, (4) dropped
when the remapped id is not selected, (5) remapped to the mapped id when
selected; (6) an event whose two reference lists are both empty after
filtering is dropped entirely. -/
theorem claimC7_reconciler (channels : List Channel) (selected : List String) :
    (∀ key id, assocGet? (nameToId channels selected) key = some id →
      ∃ ch ∈ channels, id = ch.id ∧
        (key = normName ch.name ∨ key = normName (stripTrailingParenNum ch.name))) ∧
    (∀ ch ∈ channels, ∀ key,
      (key = normName ch.name ∨ key = normName (stripTrailingParenNum ch.name)) →
      key ≠ "" → (assocGet? (nameToId channels selected) key).isSome) ∧
    (∀ chan, assocGet? (idToName channels) (chanCid chan) ≠ some (chanName chan) →
      (assocGet? (nameToId channels selected) (normName (chanName chan)) = none →
        resolveChan (idToName channels) (nameToId channels selected) selected chan =
          none) ∧
      (∀ m2, assocGet? (nameToId channels selected) (normName (chanName chan)) =
          some m2 → m2 ∉ selected →
        resolveChan (idToName channels) (nameToId channels selected) selected chan =
          none) ∧
      (∀ m2, assocGet? (nameToId channels selected) (normName (chanName chan)) =
          some m2 → m2 ∈ selected →
        resolveChan (idToName channels) (nameToId channels selected) selected chan =
          some (assocSet chan "channel_id" (.pystr m2)))) ∧
    (∀ event,
      ¬collTruthy (filterChannels (idToName channels) (nameToId channels selected)
        selected (assocGet? event "channels")) →
      ¬collTruthy (filterChannels (idToName channels) (nameToId channels selected)
        selected (assocGet? event "channels2")) →
      filterEvent (idToName channels) (nameToId channels selected) selected event =
        none) := by
  refine ⟨?_, ?_, ?_, ?_⟩
  · intro key id h
    rcases nameToId_sound channels selected channels [] key id h with h2 | hex
    · simp [assocGet?, List.find?] at h2
    · exact hex
  · intro ch hch key hkey hne
    exact nameToId_complete selected channels [] ch hch key hkey hne
  · intro chan hmis
    refine ⟨?_, ?_, ?_⟩
    · intro hnone
      simp only [resolveChan]
      rw [if_pos hmis, hnone]
    · intro m2 hget hnotsel
      simp only [resolveChan]
      rw [if_pos hmis, hget]
      dsimp only
      rw [if_neg (by simpa using hnotsel)]
    · intro m2 hget hsel
      simp only [resolveChan]
      rw [if_pos hmis, hget]
      dsimp only
      rw [if_pos (by simpa using hsel)]
  · intro event h1 h2
    unfold filterEvent
    rw [if_pos ⟨h1, h2⟩]

/-- Witness for C7, the specification's reconciler scenario: catalog
channels `1 = "MLB League Pass (1)"` and `2 = "MLB League Pass (2)"`,
selection `{1}`; the reference `{999, "MLB League Pass"}` has no catalog
id `999`, remaps through the normalized name to channel `1`, which is
selected, so the reference resolves to id `1`; and an event with no
surviving references is dropped. -/
theorem claimC7_reconciler_witness :
    resolveChan
      (idToName [⟨"1", "MLB League Pass (1)", [], ""⟩, ⟨"2", "MLB League Pass (2)", [], ""⟩])
      (nameToId [⟨"1", "MLB League Pass (1)", [], ""⟩, ⟨"2", "MLB League Pass (2)", [], ""⟩]
        ["1"])
      ["1"]
      [("channel_id", .pystr "999"), ("channel_name", .pystr "MLB League Pass")] =
      some [("channel_id", .pystr "1"), ("channel_name", .pystr "MLB League Pass")] ∧
    filterEvent
      (idToName [⟨"1", "MLB League Pass (1)", [], ""⟩, ⟨"2", "MLB League Pass (2)", [], ""⟩])
      (nameToId [⟨"1", "MLB League Pass (1)", [], ""⟩, ⟨"2", "MLB League Pass (2)", [], ""⟩]
        ["1"])
      ["1"]
      [("time", .pystr "15:00")] = none := by
  have h := claimC7_reconciler
    [⟨"1", "MLB League Pass (1)", [], ""⟩, ⟨"2", "MLB League Pass (2)", [], ""⟩] ["1"]
  constructor
  · have h5 := (h.2.2.1
      [("channel_id", .pystr "999"), ("channel_name", .pystr "MLB League Pass")]
      (by simp [idToName, assocGet?, List.find?, chanCid, chanName, pyToStr, pyStrip])).2.2
      "1" rfl (by simp)
    exact h5
  · exact h.2.2.2 [("time", .pystr "15:00")] (by simp [filterChannels, collTruthy, assocGet?, List.find?])
      (by simp [filterChannels, collTruthy, assocGet?, List.find?])

/-! ## Guide generator (`backend.generate_guide`,
src/dlhd_proxy/backend.py lines 397-462)

The embedding produces the guide's semantic content — channel records and
programme records — rather than XML bytes; serialization is out of the
claims' scope. -/

/-- Split a character list at every occurrence of `sep`
(Python `str.split(sep)` for a single-character separator). -/
def splitCharAux (sep : Char) : Nat → List Char → List Char → List (List Char)
  | 0, acc, _ => [acc.reverse]
  | _, acc, [] => [acc.reverse]
  | fuel + 1, acc, c :: cs =>
    if c = sep then acc.reverse :: splitCharAux sep fuel [] cs
    else splitCharAux sep fuel (c :: acc) cs

/-- Python `s.split(sep)` for one separator character. -/
def splitChar (sep : Char) (l : List Char) : List (List Char) :=
  splitCharAux sep (l.length + 1) [] l

/-- `day.split(" - ")[0]`: the text before the first `" - "`. -/
def takeUntilSepAux : Nat → List Char → List Char
  | 0, l => l
  | _, [] => []
  | fuel + 1, c :: cs =>
    match c :: cs with
    | ' ' :: '-' :: ' ' :: _ => []
    | _ => c :: takeUntilSepAux fuel cs

/-- The date part of a day label. -/
def dayLabelDate (s : String) : String :=
  String.mk (takeUntilSepAux (s.data.length + 1) s.data)

/-- Non-empty all-digit run to its value. -/
def parseDigits (l : List Char) : Option Nat :=
  if l ≠ [] ∧ ∀ c ∈ l, c.isDigit then some (digitsToNat l) else none

/-- Gregorian leap year (`datetime`'s calendar). -/
def isLeapYear (y : Nat) : Bool :=
  (y % 4 = 0 ∧ y % 100 ≠ 0) ∨ y % 400 = 0

/-- Days in a month. -/
def daysInMonth (y m : Nat) : Nat :=
  if m = 2 then (if isLeapYear y then 29 else 28)
  else if m = 4 ∨ m = 6 ∨ m = 9 ∨ m = 11 then 30
  else 31

/-- Model of `dateutil.parser.parse(s, dayfirst=True)` restricted to the
upstream day-label shape `DD-MM-YYYY` (the only shape the feed and the
repo's tests use); returns `(year, month, day)` or fails like the
library does on an unparseable label. -/
def parseDayDate (s : String) : Option (Nat × Nat × Nat) :=
  match splitChar '-' s.data with
  | [d, m, y] =>
    match parseDigits d, parseDigits m, parseDigits y with
    | some dd, some mm, some yy =>
      if 1 ≤ mm ∧ mm ≤ 12 ∧ 1 ≤ dd ∧ dd ≤ daysInMonth yy mm ∧ 1 ≤ yy ∧ yy ≤ 9999 then
        some (yy, mm, dd)
      else none
    | _, _, _ => none
  | _ => none

/-- Python `int(str)`: strip whitespace, optional sign, decimal digits
(underscore separators are not modelled). -/
def pyParseInt (s : String) : Option Int :=
  match (pyStrip s).data with
  | '-' :: ds => (parseDigits ds).map (fun n => -(n : Int))
  | '+' :: ds => (parseDigits ds).map (fun n => (n : Int))
  | ds => (parseDigits ds).map (fun n => (n : Int))

/-- Pad a number to a width with leading zeros. -/
def padNum (w n : Nat) : String :=
  String.mk (List.replicate (w - (natRepr n).data.length) '0' ++ (natRepr n).data)

/-- `strftime("%Y%m%d%H%M%S +0000")` of a date at an hour and minute. -/
def fmtTimestamp (y mo d h mi : Nat) : String :=
  padNum 4 y ++ padNum 2 mo ++ padNum 2 d ++ padNum 2 h ++ padNum 2 mi ++ "00 +0000"

/-- `start + timedelta(hours=1)` with day/month/year rollover. -/
def addOneHour (y mo d h mi : Nat) : Nat × Nat × Nat × Nat × Nat :=
  if h + 1 ≤ 23 then (y, mo, d, h + 1, mi)
  else if d + 1 ≤ daysInMonth y mo then (y, mo, d + 1, 0, mi)
  else if mo + 1 ≤ 12 then (y, mo + 1, 1, 0, mi)
  else (y + 1, 1, 1, 0, mi)

/-- A `programme` record of the guide. -/
structure Programme where
  start : String
  stop : String
  channel : String
  title : String
  category : String
deriving DecidableEq, Repr

/-- A `channel` record of the guide. -/
structure GuideChannelRec where
  id : String
  displayName : String
  icon : Option String
deriving DecidableEq, Repr

/-- Accumulator: emitted channel ids, channel records, programme
records. -/
structure GuideState where
  added : List String
  recs : List GuideChannelRec
  progs : List Programme
deriving DecidableEq, Repr

/-- `generate_guide`'s local `iter_channels`: the elements of a list, the
values of a dict, nothing otherwise. -/
def iterChannelsGuide : Option PyVal → List PyVal
  | some (.pylist xs) => xs
  | some (.pydict kvs) => kvs.map (fun kv => kv.2)
  | _ => []

/-- `ensure_channel`: synthesize a channel record for a selected id seen
only in the schedule. -/
def ensureChannel (displayNames : List (String × String)) (selected : List String)
    (ckvs : List (String × PyVal)) (st : GuideState) : GuideState :=
  match assocGet? ckvs "channel_id" with
  | some (.pystr cid) =>
    if cid ≠ "" ∧ cid ∈ selected ∧ cid ∉ st.added then
      let fallback := match assocGet? ckvs "channel_name" with
        | some v => pyToStr v
        | none => cid
      let dn := match assocGet? displayNames cid with
        | some n => if n ≠ "" then n else fallback
        | none => fallback
      { st with added := st.added ++ [cid],
                recs := st.recs ++ [⟨cid, dn, none⟩] }
    else st
  | _ => st

/-- Handle one channel reference of one event: synthesize the channel
record if needed and emit the programme (a non-dict reference raises
`AttributeError` in the source). -/
def guideChannelStep (displayNames : List (String × String)) (selected : List String)
    (startS stopS : String) (title category : String) (st : GuideState) :
    PyVal → Except String GuideState
  | .pydict ckvs =>
    let st2 := ensureChannel displayNames selected ckvs st
    let channelAttr := pyToStr ((assocGet? ckvs "channel_id").getD (.pystr "None"))
    .ok { st2 with progs := st2.progs ++ [⟨startS, stopS, channelAttr, title, category⟩] }
  | _ => .error "AttributeError: channel reference is not a dict"

/-- Handle one event: skip it when the time field is missing, falsy, or
fails the two-integer parse (the `except ValueError` branch); but an
out-of-range hour or minute raises uncaught from `date.replace`, and a
truthy non-string time raises uncaught from `.split`. -/
def guideEventStep (displayNames : List (String × String)) (selected : List String)
    (y mo d : Nat) (category : String) (st : GuideState)
    (event : List (String × PyVal)) : Except String GuideState :=
  match assocGet? event "time" with
  | none => .ok st
  | some tv =>
    if ¬pyTruthy tv then .ok st
    else
      match tv with
      | .pystr s =>
        match (splitChar ':' s.data).map (fun p => pyParseInt (String.mk p)) with
        | [some h, some mi] =>
          if 0 ≤ h ∧ h ≤ 23 ∧ 0 ≤ mi ∧ mi ≤ 59 then
            let hn := h.toNat
            let mn := mi.toNat
            let startS := fmtTimestamp y mo d hn mn
            let s2 := addOneHour y mo d hn mn
            let stopS := fmtTimestamp s2.1 s2.2.1 s2.2.2.1 s2.2.2.2.1 s2.2.2.2.2
            let title := match assocGet? event "event" with
              | some v => if pyTruthy v then pyToStr v else "Unknown"
              | none => "Unknown"
            (iterChannelsGuide (assocGet? event "channels") ++
              iterChannelsGuide (assocGet? event "channels2")).foldlM
              (guideChannelStep displayNames selected startS stopS title category) st
          else .error "ValueError: hour/minute out of range in date.replace"
        | [_, _] => .ok st
        | _ => .ok st
      | _ => .error "AttributeError: time value is not a string"

/-- Embedding of `backend.generate_guide`'s semantic content: the channel
records for the selected catalog channels, then per-event programme
records (1-hour slots), with schedule-only channels synthesized on first
sight.  Events whose times are missing or non-numeric are skipped; a day
label `dateutil` cannot parse, or an out-of-range time, aborts the whole
generation. -/
def generateGuide (channels : List Channel) (selected : List String)
    (schedule : List (String × List (String × List (List (String × PyVal))))) :
    Except String (List GuideChannelRec × List Programme) := do
  let displayNames := idToName channels
  let init : GuideState :=
    channels.foldl (fun st ch =>
      if ch.id ∈ selected then
        { st with added := st.added ++ [ch.id],
                  recs := st.recs ++
                    [⟨ch.id, ch.name, if ch.logo ≠ "" then some ch.logo else none⟩] }
      else st) ⟨[], [], []⟩
  let final ← schedule.foldlM (fun st day => do
    match parseDayDate (dayLabelDate day.1) with
    | none => .error "dateutil could not parse the day label"
    | some (y, mo, d) =>
      day.2.foldlM (fun st cat =>
        cat.2.foldlM (guideEventStep displayNames selected y mo d cat.1) st) st) init
  return (final.recs, final.progs)

/-- C6 (code bug): an event whose time field parses as two integers but
is out of range — e.g. `"99:99"` — aborts the whole generation: the
`try/except ValueError` only covers the `int` conversion, while
`date.replace(hour=..., minute=...)` raises its `ValueError` outside the
`try`.  First conjunct: the bad event aborts generation (the following
`13:00` event is lost).  Second: the same schedule without the bad event
generates both programmes.  Third: a missing time and a non-numeric time
are skipped as claimed, so only the range check escapes the guard. -/
theorem claimC6_malformed_time :
    generateGuide [⟨"1", "Ch One", [], "logo1"⟩] ["1"]
      [("01-01-2024 - Monday", [("Sports",
        [[("time", .pystr "12:00"), ("event", .pystr "Game"),
          ("channels", .pylist [.pydict [("channel_id", .pystr "1")]])],
         [("time", .pystr "99:99"), ("event", .pystr "Bad"),
          ("channels", .pylist [.pydict [("channel_id", .pystr "1")]])],
         [("time", .pystr "13:00"), ("event", .pystr "Game"),
          ("channels", .pylist [.pydict [("channel_id", .pystr "1")]])]])])] =
      .error "ValueError: hour/minute out of range in date.replace" ∧
    generateGuide [⟨"1", "Ch One", [], "logo1"⟩] ["1"]
      [("01-01-2024 - Monday", [("Sports",
        [[("time", .pystr "12:00"), ("event", .pystr "Game"),
          ("channels", .pylist [.pydict [("channel_id", .pystr "1")]])],
         [("time", .pystr "13:00"), ("event", .pystr "Game"),
          ("channels", .pylist [.pydict [("channel_id", .pystr "1")]])]])])] =
      .ok ([⟨"1", "Ch One", some "logo1"⟩],
        [⟨"20240101120000 +0000", "20240101130000 +0000", "1", "Game", "Sports"⟩,
         ⟨"20240101130000 +0000", "20240101140000 +0000", "1", "Game", "Sports"⟩]) ∧
    generateGuide [⟨"1", "Ch One", [], "logo1"⟩] ["1"]
      [("01-01-2024 - Monday", [("Sports",
        [[("event", .pystr "NoTime")],
         [("time", .pystr "notatime"), ("event", .pystr "BadFormat")],
         [("time", .pystr "12:00"), ("event", .pystr "Game"),
          ("channels", .pylist [.pydict [("channel_id", .pystr "1")]])]])])] =
      .ok ([⟨"1", "Ch One", some "logo1"⟩],
        [⟨"20240101120000 +0000", "20240101130000 +0000", "1", "Game", "Sports"⟩]) :=
  ⟨rfl, rfl, rfl⟩

end Dlhd
